import Mathlib

/-!
# fdns supervisor: shared status report and monitor loop

A shallow embedding of `src/fdns/shmem.c` and `src/fdns/monitor.c`.

* C strings are lists of characters without the terminating NUL; one list
  element stands for one C `char`.
* C arrays indexed by a slot or ring index are functions from `Nat`.
* `unsigned` counters are naturals reduced modulo `2 ^ 32`; `int`, `pid_t`,
  `time_t` and `ssize_t` values are integers.
* A function that can leave through `errExit`, `exit` or a failed `assert`
  returns `Option`, with `none` for the exit.
* Results of system calls are read from an explicit environment record.
-/

namespace Fdns

/-- A C string: the characters before the terminating NUL. -/
abbrev CStr := List Char

/-! ## shmem.c -/

/-- Size of the header buffer, `#define MAX_HEADER 163`. -/
def MAX_HEADER : Nat := 163

/-- Number of ring entries, `#define MAX_LOG_ENTRIES 18`. -/
def MAX_LOG_ENTRIES : Nat := 18

/-- Size of one ring entry, `#define MAX_ENTRY_LEN 82`. -/
def MAX_ENTRY_LEN : Nat := 82

/-- The shared report `struct dns_report_t`. -/
structure DnsReport where
  header : CStr
  logindex : Nat
  logentry : Nat → CStr

/-- The report after `memset(report, 0, sizeof(DnsReport))`. -/
def DnsReport.zero : DnsReport :=
  { header := [], logindex := 0, logentry := fun _ => [] }

/-- The string left in a buffer of `size` bytes by `snprintf(buf, size, "%s", str)`:
at most `size - 1` characters are written before the NUL. -/
def snprintf_s (size : Nat) (str : CStr) : CStr :=
  str.take (size - 1)

/-- The array `a` with element `i` replaced by `v`. -/
def setAt {α : Type} (a : Nat → α) (i : Nat) (v : α) : Nat → α :=
  fun j => if j = i then v else a j

/-- Results of the system calls made by `shmem_open`. -/
structure ShmOS where
  /-- the first `shm_open` (without `O_CREAT`) returned a descriptor -/
  open_ok : Bool
  /-- the second `shm_open` (with `O_CREAT | O_EXCL`) returned a descriptor -/
  creat_ok : Bool
  /-- `mmap` did not return `(void *) -1` -/
  mmap_ok : Bool
  /-- `ftruncate` did not return `-1` -/
  ftruncate_ok : Bool
  /-- contents of the region as mapped -/
  mapped : DnsReport

/-- The function `shmem_open(create)`: the report the global `report` points to
afterwards, or `none` when the process exits. -/
def shmem_open (os : ShmOS) (create : Bool) : Option DnsReport :=
  if !os.open_ok && !(create && os.creat_ok) then none
  else if !os.mmap_ok then none
  else if create then
    if !os.ftruncate_ok then none
    else some DnsReport.zero
  else some os.mapped

/-- The function `shmem_store_log(str)`. -/
def shmem_store_log (report : DnsReport) (str : CStr) : DnsReport :=
  let entries := setAt report.logentry report.logindex (snprintf_s MAX_ENTRY_LEN str)
  let idx := if report.logindex + 1 ≥ MAX_LOG_ENTRIES then 0 else report.logindex + 1
  { report with logindex := idx, logentry := setAt entries idx [] }

/-- The log lines in the order the two loops of `shmem_monitor_stats` print
them: entries `logindex .. MAX_LOG_ENTRIES - 1`, then `0 .. logindex - 1`. -/
def snapshot (report : DnsReport) : List CStr :=
  (List.range' report.logindex (MAX_LOG_ENTRIES - report.logindex)).map report.logentry
    ++ (List.range report.logindex).map report.logentry

/-- The text the two loops of `shmem_monitor_stats` print with `printf("%s", ...)`. -/
def snapshot_text (report : DnsReport) : CStr :=
  (snapshot report).flatten

/-- Appending the lines of a list with `shmem_store_log`, first line first. -/
def store_logs (report : DnsReport) (lines : List CStr) : DnsReport :=
  lines.foldl shmem_store_log report

/-! ## libc formatting and scanning -/

/-- Digits of `n` in base ten, most significant first, in front of `acc`. -/
def fmt_u_aux : Nat → Nat → CStr → CStr
  | 0, _, acc => acc
  | fuel + 1, n, acc =>
    if n < 10 then Nat.digitChar n :: acc
    else fmt_u_aux fuel (n / 10) (Nat.digitChar (n % 10) :: acc)

/-- The text printed for an `unsigned` argument by the conversion `%u`. -/
def fmt_u (n : Nat) : CStr :=
  fmt_u_aux (n + 1) n []

/-- The text printed for an `int` argument by the conversion `%d`. -/
def fmt_d (i : Int) : CStr :=
  if i < 0 then '-' :: fmt_u (-i).toNat else fmt_u i.toNat

/-- The libc predicate `isspace` in the C locale. -/
def isspace (c : Char) : Bool :=
  c = ' ' || c = '\t' || c = '\n' || c = '\x0b' || c = '\x0c' || c = '\r'

/-- The libc predicate `isdigit`. -/
def isdigit (c : Char) : Bool :=
  '0'.toNat ≤ c.toNat && c.toNat ≤ '9'.toNat

/-- Input with leading white space removed. -/
def skip_space : CStr → CStr
  | [] => []
  | c :: cs => if isspace c then skip_space cs else c :: cs

/-- Reads decimal digits, accumulating their value onto `acc`; returns the value
and the unread input. -/
def scan_digits : CStr → Nat → Nat × CStr
  | [], acc => (acc, [])
  | c :: cs, acc =>
    if isdigit c then scan_digits cs (acc * 10 + (c.toNat - '0'.toNat)) else (acc, c :: cs)

/-- The optional sign in front of a number: whether it is `-`, and the input
after it. -/
def scan_sign : CStr → Bool × CStr
  | '-' :: r => (true, r)
  | '+' :: r => (false, r)
  | r => (false, r)

/-- The `sscanf` conversion `%u`: skips white space, takes an optional sign and
then at least one decimal digit.  The value is stored in an `unsigned`, so it is
reduced modulo `2 ^ 32`.  The result is `none` on a matching failure or when
the input has run out. -/
def scan_u (input : CStr) : Option (Nat × CStr) :=
  let signed := scan_sign (skip_space input)
  match signed.2 with
  | [] => none
  | c :: cs =>
    if isdigit c then
      let res := scan_digits (c :: cs) 0
      some (if signed.1 then (2 ^ 32 - res.1 % 2 ^ 32) % 2 ^ 32 else res.1 % 2 ^ 32, res.2)
    else none

/-- A directive of a `scanf` format, as far as the formats of monitor.c need. -/
inductive Directive where
  /-- an ordinary character, matched literally -/
  | lit (c : Char)
  /-- white space, matching any amount of white space in the input -/
  | space
  /-- the conversion `%u` -/
  | conv_u
  deriving DecidableEq, Repr

/-- Splits a `scanf` format into its directives. -/
def parse_format : CStr → List Directive
  | [] => []
  | '%' :: 'u' :: cs => Directive.conv_u :: parse_format cs
  | c :: cs => (if isspace c then Directive.space else Directive.lit c) :: parse_format cs

/-- The libc function `sscanf` on a format of `%u` conversions: the values
converted, in the order of the pointer arguments they are stored through.
Scanning stops at the first directive that fails; pointer arguments of later
conversions are not written. -/
def sscanf : List Directive → CStr → List Nat
  | [], _ => []
  | Directive.lit _ :: _, [] => []
  | Directive.lit c :: ds, x :: xs => if x = c then sscanf ds xs else []
  | Directive.space :: ds, input => sscanf ds (skip_space input)
  | Directive.conv_u :: ds, input =>
    match scan_u input with
    | none => []
    | some (v, rest) => v :: sscanf ds rest

/-- The test `strncmp(a, b, n) == 0` on C strings. -/
def strncmp_eq (a b : CStr) (n : Nat) : Bool :=
  a.take n == b.take n

/-! ## Globals of monitor.c and of the headers it includes -/

/-- The counters `Stats` (`rx`, `drop`, `fallback`, `cached`), all `unsigned`. -/
structure Stats where
  rx : Nat
  drop : Nat
  fallback : Nat
  cached : Nat
  deriving DecidableEq, Repr

/-- Addition of two `unsigned` values. -/
def add_u32 (a b : Nat) : Nat :=
  (a + b) % 2 ^ 32

/-- The upstream server record `DnsServer`, of which only the name is read. -/
structure DnsServer where
  name : CStr
  deriving DecidableEq, Repr

/-- A datagram as `read` leaves it in the local `LogMsg msg`: the declared
length `msg.h.len` and the bytes of `msg.buf`. -/
structure LogMsg where
  h_len : Int
  buf : List Char
  deriving DecidableEq, Repr

/-- One entry of the table `w`: `struct worker_t` without the child stack. -/
structure Worker where
  pid : Int
  keepalive : Int
  fd0 : Int
  fd1 : Int
  deriving DecidableEq, Repr

/-- The signals the supervisor sends. -/
inductive Signal where
  | SIGKILL
  | SIGTERM
  deriving DecidableEq, Repr

/-- What the supervisor does to the outside world, in order. -/
inductive Event where
  /-- a line written with `logprintf` -/
  | logprintf (text : CStr)
  /-- text written with `printf` -/
  | printf (text : CStr)
  /-- the call `kill(pid, sig)` -/
  | kill (pid : Int) (sig : Signal)
  /-- the call `waitpid(pid, &status, options)`; `nohang` is `WNOHANG` -/
  | waitpid (pid : Int) (nohang : Bool)
  /-- the call `socketpair` for slot `id` -/
  | socketpair (id : Nat)
  /-- the call `clone(sandbox, ...)` for slot `id` -/
  | clone (id : Nat)
  deriving DecidableEq, Repr

/-- Constants of `fdns.h` and the command line, which monitor.c only reads. -/
structure Config where
  /-- the option `--workers` -/
  arg_workers : Nat
  /-- the option `--debug` -/
  arg_debug : Bool
  WORKERS_MAX : Nat
  WORKER_KEEPALIVE_SHUTDOWN : Int
  WORKER_KEEPALIVE_AFTER_SLEEP : Int
  OUT_OF_SLEEP : Int
  /-- the value of `sizeof(LogMsgHeader)` -/
  sizeof_LogMsgHeader : Nat

/-- The mutable state of the supervisor: the globals `w`, `encrypted`, `stats`,
`report`, `got_SIGCHLD`, the local `timestamp` of `monitor`, and the trace of
outside effects so far. -/
structure Monitor where
  w : Nat → Worker
  encrypted : Nat → Int
  stats : Stats
  report : DnsReport
  got_SIGCHLD : Bool
  timestamp : Int
  trace : List Event

/-- The return of `pselect` in one pass of the loop. -/
inductive Pselect where
  /-- the value `-1` with `errno == EINTR` -/
  | eintr
  /-- the value `-1` with another `errno` -/
  | error
  /-- the value `0`: the one-second timeout ran out -/
  | timeout
  /-- a positive value, with the descriptors left in `rset` -/
  | ready (rset : Int → Bool)

/-- What the outside world answers during one pass of the loop. -/
structure Env where
  /-- the return of `pselect` -/
  pselect : Pselect
  /-- `child_sig_handler` ran while `pselect` had SIGCHLD unblocked -/
  sigchld : Bool
  /-- the return of `getpid()` -/
  getpid : Int
  /-- the return of `dns_get_server()`, `none` for `NULL` -/
  dns_get_server : Option DnsServer
  /-- the pair made by `socketpair` for a slot, `none` when it fails -/
  socketpair : Nat → Option (Int × Int)
  /-- the return of `clone` for a slot -/
  clone : Nat → Int
  /-- the return of `waitpid(pid, &status, WNOHANG)` -/
  waitpid_nohang : Int → Int
  /-- the return of `time(NULL)` at the start of the timeout branch -/
  time_tick : Int
  /-- the return of `time(NULL)` at the end of the timeout branch -/
  time_after : Int
  /-- the return of `read(fd, &msg, sizeof(LogMsg))` and the datagram read -/
  read : Int → Int × LogMsg
  /-- `asprintf` returned something else than `-1` -/
  asprintf_ok : Bool
  /-- the indeterminate contents of the uninitialised local `Stats s` when the
  message of a slot is parsed -/
  stack_s : Nat → Stats

/-- Appends an outside effect to the trace. -/
def emit (e : Event) (st : Monitor) : Monitor :=
  { st with trace := st.trace ++ [e] }

/-- Modelled from the spec: `logprintf` is defined outside the files at hand.
In the supervisor it writes the text to the process log, which section 4.3 of the
specification keeps apart from the log ring of the shared report. -/
def logprintf (text : CStr) (st : Monitor) : Monitor :=
  emit (Event.logprintf text) st

/-! ## shmem_store_stats -/

/-- The loop `for (i = 0; i < arg_workers; i++) if (encrypted[i] == 0) break;`
from index `i` with `remaining` slots to go; returns the final `i`. -/
def enc_loop (encrypted : Nat → Int) : Nat → Nat → Nat
  | 0, i => i
  | remaining + 1, i => if encrypted i = 0 then i else enc_loop encrypted remaining (i + 1)

/-- The value of `encstatus` in `shmem_store_stats`. -/
def encstatus (arg_workers : Nat) (encrypted : Nat → Int) : CStr :=
  if enc_loop encrypted arg_workers 0 = arg_workers then "ENCRYPTED".toList
  else "NOT ENCRYPTED".toList

/-- The first line of the header format with its five arguments. -/
def header_line1 (pid : Int) (stats : Stats) : CStr :=
  "PID ".toList ++ fmt_d pid ++ ", requests ".toList ++ fmt_u stats.rx
    ++ ", dropped ".toList ++ fmt_u stats.drop ++ ", fallback ".toList ++ fmt_u stats.fallback
    ++ ", cached ".toList ++ fmt_u stats.cached ++ "\n".toList

/-- The second line of the header format, `"%s %s\n"`. -/
def header_line2 (name status : CStr) : CStr :=
  name ++ " ".toList ++ status ++ "\n".toList

/-- The function `shmem_store_stats` on the globals it reads; `none` when
`assert(srv)` fails. -/
def shmem_store_stats (pid : Int) (srv : Option DnsServer) (arg_workers : Nat)
    (encrypted : Nat → Int) (stats : Stats) (report : DnsReport) : Option DnsReport :=
  match srv with
  | none => none
  | some srv =>
    some { report with
      header := snprintf_s MAX_HEADER
        (header_line1 pid stats ++ header_line2 srv.name (encstatus arg_workers encrypted)) }

/-- The call `shmem_store_stats()` in the supervisor. -/
def store_stats (cfg : Config) (env : Env) (st : Monitor) : Option Monitor :=
  match shmem_store_stats env.getpid env.dns_get_server cfg.arg_workers st.encrypted st.stats
      st.report with
  | none => none
  | some r => some { st with report := r }

/-- The call `shmem_store_log(str)` in the supervisor. -/
def store_log (str : CStr) (st : Monitor) : Monitor :=
  { st with report := shmem_store_log st.report str }

/-! ## monitor.c -/

/-- The function `start_sandbox(id)`; `none` when the assertion fails or the
process leaves through `errExit`. -/
def start_sandbox (cfg : Config) (env : Env) (id : Nat) (st : Monitor) : Option Monitor :=
  if cfg.WORKERS_MAX ≤ id then none
  else
    let st1 : Monitor := { st with encrypted := setAt st.encrypted id 0 }
    let paired : Option Monitor :=
      if (st1.w id).fd0 = 0 then
        match env.socketpair id with
        | none => none
        | some fds =>
          let st2 : Monitor :=
            emit (Event.socketpair id)
              { st1 with w := setAt st1.w id { (st1.w id) with fd0 := fds.1, fd1 := fds.2 } }
          some (if cfg.arg_debug then
            emit (Event.printf ("workerid ".toList ++ fmt_d id ++ ", sockpair ".toList
              ++ fmt_d fds.1 ++ ", ".toList ++ fmt_d fds.2 ++ "\n".toList)) st2
          else st2)
      else some st1
    match paired with
    | none => none
    | some st3 =>
      let pid := env.clone id
      let st4 : Monitor :=
        emit (Event.clone id)
          { st3 with w := setAt st3.w id ({ (st3.w id) with
              pid := pid, keepalive := cfg.WORKER_KEEPALIVE_SHUTDOWN }) }
      if pid = -1 then none else some st4

/-- A loop `for (i = 0; i < arg_workers; i++)` whose body can leave the process,
over the slot indices still to visit. -/
def for_slots (body : Nat → Monitor → Option Monitor) : List Nat → Monitor → Option Monitor
  | [], st => some st
  | i :: rest, st =>
    match body i st with
    | none => none
    | some st1 => for_slots body rest st1

/-- Body of the loop that lowers the keepalive counters after a sleep. -/
def clamp_slot (cfg : Config) (st : Monitor) (i : Nat) : Monitor :=
  if (st.w i).keepalive > cfg.WORKER_KEEPALIVE_AFTER_SLEEP then
    { st with w := setAt st.w i { (st.w i) with keepalive := cfg.WORKER_KEEPALIVE_AFTER_SLEEP } }
  else st

/-- The step `if (ts - timestamp > OUT_OF_SLEEP) ...` of the timeout branch. -/
def sleep_clamp (cfg : Config) (ts : Int) (st : Monitor) : Monitor :=
  if ts - st.timestamp > cfg.OUT_OF_SLEEP then
    (List.range cfg.arg_workers).foldl (clamp_slot cfg) st
  else st

/-- Body of the loop that restarts the workers whose keepalive time expired. -/
def expire_slot (cfg : Config) (env : Env) (i : Nat) (st : Monitor) : Option Monitor :=
  let st1 : Monitor :=
    { st with w := setAt st.w i { (st.w i) with keepalive := (st.w i).keepalive - 1 } }
  if (st1.w i).keepalive ≤ 0 then
    let st2 := logprintf ("Restarting worker process ".toList ++ fmt_d i ++ "\n".toList) st1
    let st3 := emit (Event.kill (st2.w i).pid Signal.SIGKILL) st2
    let st4 := emit (Event.waitpid (st3.w i).pid false) st3
    start_sandbox cfg env i st4
  else some st1

/-- The branch `rv == 0` of the loop: one timeout tick. -/
def timeout_tick (cfg : Config) (env : Env) (st : Monitor) : Option Monitor :=
  match for_slots (expire_slot cfg env) (List.range cfg.arg_workers)
      (sleep_clamp cfg env.time_tick st) with
  | none => none
  | some st1 => some { st1 with timestamp := env.time_after }

/-- Body of the loop that looks for dead workers. -/
def reap_slot (cfg : Config) (env : Env) (i : Nat) (st : Monitor) : Option Monitor :=
  let pid := env.waitpid_nohang (st.w i).pid
  let st1 := emit (Event.waitpid (st.w i).pid true) st
  if pid = (st1.w i).pid then
    let st2 := logprintf ("Error: worker ".toList ++ fmt_d i ++ " (pid ".toList
      ++ fmt_u (pid % 2 ^ 32).toNat ++ ") terminated, restarting it...\n".toList) st1
    let st3 := emit (Event.kill pid Signal.SIGTERM) st2
    start_sandbox cfg env i st3
  else some st1

/-- The branch `got_SIGCHLD` of the loop. -/
def reap_dead (cfg : Config) (env : Env) (st : Monitor) : Option Monitor :=
  for_slots (reap_slot cfg env) (List.range cfg.arg_workers) { st with got_SIGCHLD := false }

/-- The bytes of a buffer up to the first NUL. -/
def c_str (bytes : List Char) : CStr :=
  bytes.takeWhile (fun c => c != '\x00')

/-- The string in `msg.buf` after `msg.buf[len - sizeof(LogMsgHeader)] = 0`.
The assignment is inside the buffer only for `len` from `sizeof(LogMsgHeader)`
up to `sizeof(LogMsg) - 1`. -/
def msg_text (cfg : Config) (len : Int) (msg : LogMsg) : CStr :=
  c_str (msg.buf.take (len - cfg.sizeof_LogMsgHeader).toNat)

/-- The format of the statistics message. -/
def STATS_FORMAT : CStr :=
  "Stats: rx %u, dropped %u, fallback %u, cached %u".toList

/-- The call `sscanf(msg.buf, "Stats: rx %u, ...", &s.rx, &s.drop, &s.fallback,
&s.cached)` on the local `s`, which starts with the contents `s`. -/
def sscanf_stats (s : Stats) (buf : CStr) : Stats :=
  match sscanf (parse_format STATS_FORMAT) buf with
  | [] => s
  | [a] => { s with rx := a }
  | [a, b] => { s with rx := a, drop := b }
  | [a, b, c] => { s with rx := a, drop := b, fallback := c }
  | a :: b :: c :: d :: _ => { rx := a, drop := b, fallback := c, cached := d }

/-- The statements under `// calculate global stats`. -/
def add_stats (stats s : Stats) : Stats :=
  { rx := add_u32 stats.rx s.rx,
    drop := add_u32 stats.drop s.drop,
    fallback := add_u32 stats.fallback s.fallback,
    cached := add_u32 stats.cached s.cached }

/-- The part of the loop body under `// parse incoming message`, for the
message text `buf` read from slot `i`. -/
def dispatch (cfg : Config) (env : Env) (i : Nat) (buf : CStr) (st : Monitor) :
    Option Monitor :=
  if strncmp_eq buf "Stats: ".toList 7 then
    store_stats cfg env { st with stats := add_stats st.stats (sscanf_stats (env.stack_s i) buf) }
  else if strncmp_eq buf "Request: ".toList 9 then
    some (store_log (buf.drop 9) (emit (Event.printf (buf.drop 9)) st))
  else if strncmp_eq buf "worker keepalive".toList 16 then
    some { st with w := setAt st.w i ({ (st.w i) with
      keepalive := cfg.WORKER_KEEPALIVE_SHUTDOWN }) }
  else
    let flagged : Option Monitor :=
      if strncmp_eq buf "SSL connection opened".toList 21 then
        store_stats cfg env { st with encrypted := setAt st.encrypted i 1 }
      else if strncmp_eq buf "SSL connection closed".toList 21 then
        store_stats cfg env { st with encrypted := setAt st.encrypted i 0 }
      else some st
    match flagged with
    | none => none
    | some st1 =>
      if env.asprintf_ok then
        let tmp : CStr := "(".toList ++ fmt_d i ++ ") ".toList ++ buf
        some (store_log tmp (logprintf tmp st1))
      else none

/-- Body of the loop over the slots in the last branch: reads and handles the
message of slot `i` when its descriptor is in `rset`. -/
def read_slot (cfg : Config) (env : Env) (rset : Int → Bool) (i : Nat) (st : Monitor) :
    Option Monitor :=
  if rset (st.w i).fd0 then
    let len := (env.read (st.w i).fd0).1
    let msg := (env.read (st.w i).fd0).2
    if len = -1 then none
    else if len ≠ msg.h_len then
      some (logprintf "Error: log message with an invalid length\n".toList st)
    else dispatch cfg env i (msg_text cfg len msg) st
  else some st

/-- The last branch of the loop: the pass over the ready descriptors. -/
def read_ready (cfg : Config) (env : Env) (rset : Int → Bool) (st : Monitor) : Option Monitor :=
  for_slots (read_slot cfg env rset) (List.range cfg.arg_workers) st

/-- One pass of the `while (1)` loop of `monitor`, from the call of `pselect`. -/
def monitor_iteration (cfg : Config) (env : Env) (st : Monitor) : Option Monitor :=
  let st1 : Monitor := { st with got_SIGCHLD := st.got_SIGCHLD || env.sigchld }
  match env.pselect with
  | Pselect.eintr => some st1
  | Pselect.error => some (emit (Event.printf "***\n".toList) st1)
  | Pselect.timeout => timeout_tick cfg env st1
  | Pselect.ready rset =>
    if st1.got_SIGCHLD then reap_dead cfg env st1
    else read_ready cfg env rset st1

/-- Successive passes of the loop, one for each environment of the list. -/
def run (cfg : Config) : List Env → Monitor → Option Monitor
  | [], st => some st
  | env :: envs, st =>
    match monitor_iteration cfg env st with
    | none => none
    | some st1 => run cfg envs st1

/-! ## Observations and test data used by the theorems -/

/-- The nineteen lines `"line 0"` to `"line 18"`. -/
def nineteen_lines : List CStr :=
  (List.range 19).map (fun n => "line ".toList ++ fmt_u n ++ "\n".toList)

/-- A configuration with two workers and small keepalive constants. -/
def test_cfg : Config :=
  { arg_workers := 2, arg_debug := false, WORKERS_MAX := 10,
    WORKER_KEEPALIVE_SHUTDOWN := 3, WORKER_KEEPALIVE_AFTER_SLEEP := 2,
    OUT_OF_SLEEP := 10, sizeof_LogMsgHeader := 2 }

/-- A datagram whose declared length is right: header size plus text length. -/
def test_msg (text : String) : Int × LogMsg :=
  (2 + text.length, { h_len := 2 + text.length, buf := text.toList })

/-- An environment in which every system call succeeds; every descriptor
delivers the datagram `dgram`, and `pselect` returns `p`. -/
def test_env (p : Pselect) (dgram : Int × LogMsg) : Env :=
  { pselect := p, sigchld := false, getpid := 4242,
    dns_get_server := some { name := "cloudflare".toList },
    socketpair := fun id => some (2 * id + 10, 2 * id + 11),
    clone := fun id => 1000 + id,
    waitpid_nohang := fun _ => 0,
    time_tick := 100, time_after := 100,
    read := fun _ => dgram,
    asprintf_ok := true,
    stack_s := fun _ => { rx := 1, drop := 7, fallback := 9, cached := 11 } }

/-- A state with two running workers on descriptors 10 and 12, slot 1 encrypted. -/
def test_state : Monitor :=
  { w := fun i => { pid := 500 + i, keepalive := 3, fd0 := 2 * i + 10, fd1 := 2 * i + 11 },
    encrypted := fun i => if i = 1 then 1 else 0,
    stats := { rx := 0, drop := 0, fallback := 0, cached := 0 },
    report := DnsReport.zero,
    got_SIGCHLD := false,
    timestamp := 100,
    trace := [] }

/-- A datagram whose declared length is one more than the number of bytes read. -/
def bad_msg (text : String) : Int × LogMsg :=
  (2 + text.length, { h_len := 3 + text.length, buf := text.toList })

/-- The state of `test_state` with the death flag set. -/
def pending_state : Monitor :=
  { test_state with got_SIGCHLD := true }

/-- An environment in which the timeout runs out while the worker of slot 0
(pid 500) has exited. -/
def timeout_env : Env :=
  { test_env Pselect.timeout (test_msg "") with
    waitpid_nohang := fun pid => if pid = 500 then 500 else 0 }

/-- The payload of a well-formed statistics message with the four deltas. -/
def stats_payload (a b c d : Nat) : CStr :=
  "Stats: rx ".toList ++ fmt_u a ++ ", dropped ".toList ++ fmt_u b
    ++ ", fallback ".toList ++ fmt_u c ++ ", cached ".toList ++ fmt_u d

/-- An upstream server whose name has 120 characters. -/
def long_name_server : DnsServer :=
  { name := List.replicate 120 'x' }

/-- Number of times `clone` was called for slot `i` in a trace. -/
def launches (i : Nat) (trace : List Event) : Nat :=
  trace.count (Event.clone i)

/-- What the claims on restarts observe of slot `i`: its keepalive counter, its
encryption flag and the number of launches so far. -/
def slot_view (i : Nat) (st : Monitor) : Int × Int × Nat :=
  ((st.w i).keepalive, st.encrypted i, launches i st.trace)

/-- The calls `socketpair` and `clone` succeed for every slot. -/
def launch_ok (env : Env) : Prop :=
  ∀ id, env.socketpair id ≠ none ∧ env.clone id ≠ -1

/-- No tick of the list comes more than `OUT_OF_SLEEP` seconds after the
previous one, the first being measured from `timestamp`. -/
def no_sleep_jump (cfg : Config) : Int → List Env → Prop
  | _, [] => True
  | timestamp, env :: envs =>
    env.time_tick - timestamp ≤ cfg.OUT_OF_SLEEP ∧ no_sleep_jump cfg env.time_after envs

/-- The effect of one tick without sleep jump on the view of a slot. -/
def tick_view (cfg : Config) (v : Int × Int × Nat) : Int × Int × Nat :=
  if v.1 - 1 ≤ 0 then (cfg.WORKER_KEEPALIVE_SHUTDOWN, 0, v.2.2 + 1) else (v.1 - 1, v.2.1, v.2.2)

/-- A pass in which the timeout runs out, with the clock still at 100. -/
def tick_env : Env :=
  test_env Pselect.timeout (test_msg "")

/-! ## Lemmas on arrays -/

theorem setAt_same {α : Type} (a : Nat → α) (i : Nat) (v : α) : setAt a i v i = v := by
  simp [setAt]

theorem setAt_other {α : Type} (a : Nat → α) (i j : Nat) (v : α) (h : j ≠ i) :
    setAt a i v j = a j := by
  simp [setAt, h]

/-! ## The log ring -/

theorem store_log_logindex (r : DnsReport) (str : CStr) (hc : r.logindex < MAX_LOG_ENTRIES) :
    (shmem_store_log r str).logindex = (r.logindex + 1) % MAX_LOG_ENTRIES := by
  simp only [shmem_store_log, MAX_LOG_ENTRIES] at *
  split <;> omega

theorem store_log_at_cursor (r : DnsReport) (str : CStr) (hc : r.logindex < MAX_LOG_ENTRIES) :
    (shmem_store_log r str).logentry r.logindex = snprintf_s MAX_ENTRY_LEN str := by
  have hne : r.logindex ≠ (if r.logindex + 1 ≥ MAX_LOG_ENTRIES then 0 else r.logindex + 1) := by
    simp only [MAX_LOG_ENTRIES] at *
    split <;> omega
  simp only [shmem_store_log]
  rw [setAt_other _ _ _ _ hne, setAt_same]

theorem store_log_at_next (r : DnsReport) (str : CStr) :
    (shmem_store_log r str).logentry (shmem_store_log r str).logindex = [] := by
  simp only [shmem_store_log, setAt_same]

theorem store_log_elsewhere (r : DnsReport) (str : CStr) (j : Nat) (h1 : j ≠ r.logindex)
    (h2 : j ≠ (shmem_store_log r str).logindex) :
    (shmem_store_log r str).logentry j = r.logentry j := by
  simp only [shmem_store_log] at h2 ⊢
  rw [setAt_other _ _ _ _ h2, setAt_other _ _ _ _ h1]

theorem store_logs_snoc (r : DnsReport) (lines : List CStr) (x : CStr) :
    store_logs r (lines ++ [x]) = shmem_store_log (store_logs r lines) x := by
  simp [store_logs, List.foldl_append]

/-- State of the ring after `lines` were appended to a zeroed report: the cursor
is the number of lines modulo the capacity, the entry under the cursor is empty
and each of the last seventeen lines sits at its index modulo the capacity. -/
theorem store_logs_inv (lines : List CStr) :
    (store_logs DnsReport.zero lines).logindex = lines.length % MAX_LOG_ENTRIES
    ∧ (store_logs DnsReport.zero lines).logentry (lines.length % MAX_LOG_ENTRIES) = []
    ∧ ∀ m, m < lines.length → lines.length - m < MAX_LOG_ENTRIES →
        (store_logs DnsReport.zero lines).logentry (m % MAX_LOG_ENTRIES)
          = snprintf_s MAX_ENTRY_LEN (lines.getD m []) := by
  induction lines using List.reverseRecOn with
  | nil => simp [store_logs, DnsReport.zero]
  | append_singleton ls x ih =>
    obtain ⟨ih1, _, ih3⟩ := ih
    have hc : (store_logs DnsReport.zero ls).logindex < MAX_LOG_ENTRIES := by
      rw [ih1]; exact Nat.mod_lt _ (by decide)
    have hidx : (shmem_store_log (store_logs DnsReport.zero ls) x).logindex
        = (ls.length + 1) % MAX_LOG_ENTRIES := by
      rw [store_log_logindex _ _ hc, ih1]
      simp only [MAX_LOG_ENTRIES]; omega
    rw [store_logs_snoc]
    simp only [List.length_append, List.length_singleton]
    refine ⟨hidx, ?_, ?_⟩
    · rw [← hidx]; exact store_log_at_next _ _
    · intro m hm hd
      by_cases hmn : m = ls.length
      · subst hmn
        rw [← ih1, store_log_at_cursor _ _ hc]
        simp [List.getD]
      · have hm2 : m < ls.length := by omega
        have h1 : m % MAX_LOG_ENTRIES ≠ (store_logs DnsReport.zero ls).logindex := by
          rw [ih1]; simp only [MAX_LOG_ENTRIES] at *; omega
        have h2 : m % MAX_LOG_ENTRIES
            ≠ (shmem_store_log (store_logs DnsReport.zero ls) x).logindex := by
          rw [hidx]; simp only [MAX_LOG_ENTRIES] at *; omega
        rw [store_log_elsewhere _ _ _ h1 h2, ih3 m hm2 (by omega)]
        simp [List.getD, List.getElem?_append_left hm2]

theorem snapshot_length (r : DnsReport) (hc : r.logindex < MAX_LOG_ENTRIES) :
    (snapshot r).length = MAX_LOG_ENTRIES := by
  simp only [snapshot, List.length_append, List.length_map, List.length_range',
    List.length_range]
  omega

theorem snapshot_getElem (r : DnsReport) (hc : r.logindex < MAX_LOG_ENTRIES) (t : Nat)
    (ht : t < (snapshot r).length) :
    (snapshot r)[t] = r.logentry ((r.logindex + t) % MAX_LOG_ENTRIES) := by
  have hlen := snapshot_length r hc
  simp only [MAX_LOG_ENTRIES] at *
  simp only [snapshot, MAX_LOG_ENTRIES]
  by_cases h : t < 18 - r.logindex
  · rw [List.getElem_append_left (by simpa using h)]
    simp only [List.getElem_map, List.getElem_range']
    congr 1; omega
  · rw [List.getElem_append_right (by simpa using h)]
    simp only [List.getElem_map, List.getElem_range, List.length_map, List.length_range']
    congr 1; omega

/-- The snapshot after any lines were appended to a zeroed report, at least
seventeen of them: an empty entry, then the last seventeen lines, each cut to the
entry size. -/
theorem snapshot_store_logs (lines : List CStr) (hn : MAX_LOG_ENTRIES - 1 ≤ lines.length) :
    snapshot (store_logs DnsReport.zero lines)
      = [] :: ((lines.drop (lines.length - (MAX_LOG_ENTRIES - 1))).map
          (snprintf_s MAX_ENTRY_LEN)) := by
  obtain ⟨h1, h2, h3⟩ := store_logs_inv lines
  have hc : (store_logs DnsReport.zero lines).logindex < MAX_LOG_ENTRIES := by
    rw [h1]; exact Nat.mod_lt _ (by decide)
  apply List.ext_getElem
  · rw [snapshot_length _ hc]
    simp only [MAX_LOG_ENTRIES] at *
    simp only [List.length_cons, List.length_map, List.length_drop]
    omega
  · intro t ht1 ht2
    rw [snapshot_getElem _ hc, h1]
    rw [snapshot_length _ hc] at ht1
    simp only [MAX_LOG_ENTRIES] at *
    rcases t with _ | t
    · simpa using h2
    · have hm : (lines.length % 18 + (t + 1)) % 18 = (lines.length - 17 + t) % 18 := by omega
      rw [hm, h3 (lines.length - 17 + t) (by omega) (by omega)]
      simp only [List.getElem_cons_succ, List.getElem_map, List.getElem_drop]
      rw [List.getD_eq_getElem?_getD, List.getElem?_eq_getElem (by omega)]
      simp

theorem snprintf_s_short (size : Nat) (str : CStr) (h : str.length ≤ size - 1) :
    snprintf_s size str = str := by
  simp [snprintf_s, List.take_of_length_le h]

/-! ## Claims on the shared report -/

/-- C1, as stated, fails: after nineteen non-empty short lines were appended to
a zeroed report, the snapshot is not the list of the last eighteen lines, and the
text printed from it is not the text of the last eighteen lines. -/
theorem snapshot_not_last_eighteen :
    MAX_LOG_ENTRIES < nineteen_lines.length
    ∧ (∀ l ∈ nineteen_lines, l ≠ [] ∧ l.length ≤ MAX_ENTRY_LEN - 1)
    ∧ snapshot (store_logs DnsReport.zero nineteen_lines)
        ≠ nineteen_lines.drop (nineteen_lines.length - MAX_LOG_ENTRIES)
    ∧ snapshot_text (store_logs DnsReport.zero nineteen_lines)
        ≠ (nineteen_lines.drop (nineteen_lines.length - MAX_LOG_ENTRIES)).flatten := by
  decide

/-- C1, amended: after more than `MAX_LOG_ENTRIES` non-empty lines of at most
81 characters were appended with `shmem_store_log` to a zeroed report, the ring
read in snapshot order is one empty entry (the one `shmem_store_log` clears under
the new cursor) followed by exactly the 17 most recently appended lines in the
order they were appended, so the text printed is that of those 17 lines; and
appending the same line twice in a row leaves two entries with that text. -/
theorem snapshot_last_seventeen (lines : List CStr)
    (hn : MAX_LOG_ENTRIES < lines.length)
    (hne : ∀ l ∈ lines, l ≠ [])
    (hlen : ∀ l ∈ lines, l.length ≤ MAX_ENTRY_LEN - 1) :
    snapshot (store_logs DnsReport.zero lines)
        = [] :: lines.drop (lines.length - (MAX_LOG_ENTRIES - 1))
    ∧ snapshot_text (store_logs DnsReport.zero lines)
        = (lines.drop (lines.length - (MAX_LOG_ENTRIES - 1))).flatten
    ∧ (lines.drop (lines.length - (MAX_LOG_ENTRIES - 1))).length = MAX_LOG_ENTRIES - 1
    ∧ (∀ l ∈ lines.drop (lines.length - (MAX_LOG_ENTRIES - 1)), l ≠ [])
    ∧ ∀ s : CStr, s.length ≤ MAX_ENTRY_LEN - 1 →
        [s, s] <:+ snapshot (store_logs DnsReport.zero (lines ++ [s, s])) := by
  have hsnap : ∀ ls : List CStr, MAX_LOG_ENTRIES < ls.length →
      (∀ l ∈ ls, l.length ≤ MAX_ENTRY_LEN - 1) →
      snapshot (store_logs DnsReport.zero ls)
        = [] :: ls.drop (ls.length - (MAX_LOG_ENTRIES - 1)) := by
    intro ls h1 h2
    rw [snapshot_store_logs ls (by simp only [MAX_LOG_ENTRIES] at *; omega)]
    congr 1
    have : ∀ l ∈ ls.drop (ls.length - (MAX_LOG_ENTRIES - 1)),
        snprintf_s MAX_ENTRY_LEN l = l :=
      fun l hl => snprintf_s_short _ _ (h2 l (List.mem_of_mem_drop hl))
    rw [List.map_congr_left this, List.map_id']
  refine ⟨hsnap lines hn hlen, ?_, ?_, ?_, ?_⟩
  · rw [snapshot_text, hsnap lines hn hlen]; simp
  · simp only [MAX_LOG_ENTRIES] at *
    simp only [List.length_drop]; omega
  · intro l hl
    exact hne l (List.mem_of_mem_drop hl)
  · intro s hs
    have hlen2 : ∀ l ∈ lines ++ [s, s], l.length ≤ MAX_ENTRY_LEN - 1 := by
      intro l hl
      rcases List.mem_append.1 hl with h | h
      · exact hlen l h
      · simp only [List.mem_cons, List.mem_singleton, List.not_mem_nil, or_false, or_self] at h
        rw [h]; exact hs
    rw [hsnap (lines ++ [s, s]) (by simp only [List.length_append]; simp; omega) hlen2]
    apply List.IsSuffix.trans _ (List.suffix_cons _ _)
    have hle : (lines ++ [s, s]).length - (MAX_LOG_ENTRIES - 1) ≤ lines.length := by
      simp only [MAX_LOG_ENTRIES] at *
      simp only [List.length_append, List.length_cons, List.length_nil]; omega
    rw [List.drop_append_of_le_length hle]
    exact List.suffix_append _ _

/-- Witness of `snapshot_last_seventeen` on nineteen lines. -/
theorem snapshot_last_seventeen_witness :
    MAX_LOG_ENTRIES < nineteen_lines.length
    ∧ snapshot (store_logs DnsReport.zero nineteen_lines)
        = [] :: nineteen_lines.drop (nineteen_lines.length - (MAX_LOG_ENTRIES - 1)) :=
  ⟨by decide,
    (snapshot_last_seventeen nineteen_lines (by decide) (by decide) (by decide)).1⟩

/-- C10: the write cursor stays in `[0, MAX_LOG_ENTRIES)`.  `shmem_open(1)`, when
it returns, leaves the zeroed report, whose cursor is 0; `shmem_store_stats` does
not change the cursor or the ring; and on a report with cursor `c < 18`,
`shmem_store_log` stores the string cut to at most 81 characters in entry `c`,
sets the cursor to `(c + 1) mod 18`, empties the entry under the new cursor and
leaves every other entry unchanged. -/
theorem logindex_in_range (os : ShmOS) (pid : Int) (srv : Option DnsServer) (n : Nat)
    (encrypted : Nat → Int) (stats : Stats) (r : DnsReport) (str : CStr)
    (hc : r.logindex < MAX_LOG_ENTRIES) :
    (shmem_open os true
        = if (os.open_ok || os.creat_ok) && os.mmap_ok && os.ftruncate_ok
          then some DnsReport.zero else none)
    ∧ DnsReport.zero.logindex = 0
    ∧ (∀ r1, shmem_store_stats pid srv n encrypted stats r = some r1 →
        r1.logindex = r.logindex ∧ r1.logentry = r.logentry)
    ∧ (srv ≠ none → ∃ r1, shmem_store_stats pid srv n encrypted stats r = some r1)
    ∧ (shmem_store_log r str).logentry r.logindex = str.take (MAX_ENTRY_LEN - 1)
    ∧ ((shmem_store_log r str).logentry r.logindex).length ≤ MAX_ENTRY_LEN - 1
    ∧ (shmem_store_log r str).logindex = (r.logindex + 1) % MAX_LOG_ENTRIES
    ∧ (shmem_store_log r str).logindex < MAX_LOG_ENTRIES
    ∧ (shmem_store_log r str).logentry ((r.logindex + 1) % MAX_LOG_ENTRIES) = []
    ∧ (∀ j, j ≠ r.logindex → j ≠ (r.logindex + 1) % MAX_LOG_ENTRIES →
        (shmem_store_log r str).logentry j = r.logentry j)
    ∧ (shmem_store_log r str).header = r.header := by
  have hidx := store_log_logindex r str hc
  refine ⟨?_, rfl, ?_, ?_, ?_, ?_, hidx, ?_, ?_, ?_, rfl⟩
  · cases h1 : os.open_ok <;> cases h2 : os.creat_ok <;> cases h3 : os.mmap_ok <;>
      cases h4 : os.ftruncate_ok <;> simp [shmem_open, h1, h2, h3, h4]
  · intro r1 h
    cases srv with
    | none => simp [shmem_store_stats] at h
    | some s =>
      simp only [shmem_store_stats, Option.some.injEq] at h
      subst h
      exact ⟨rfl, rfl⟩
  · intro h
    cases srv with
    | none => exact absurd rfl h
    | some s => exact ⟨_, rfl⟩
  · rw [store_log_at_cursor r str hc]; rfl
  · rw [store_log_at_cursor r str hc]
    simp only [snprintf_s, List.length_take]
    exact Nat.min_le_left _ _
  · rw [hidx]; exact Nat.mod_lt _ (by decide)
  · rw [← hidx]; exact store_log_at_next r str
  · intro j h1 h2
    exact store_log_elsewhere r str j h1 (by rw [hidx]; exact h2)

/-- Witness of `logindex_in_range`: a report with the cursor on the last entry. -/
theorem logindex_in_range_witness :
    ({ DnsReport.zero with logindex := 17 } : DnsReport).logindex < MAX_LOG_ENTRIES
    ∧ (shmem_store_log { DnsReport.zero with logindex := 17 } "query\n".toList).logindex
        = (17 + 1) % MAX_LOG_ENTRIES :=
  ⟨by decide,
    (logindex_in_range ⟨true, true, true, true, DnsReport.zero⟩ 1 none 1 (fun _ => 0)
      ⟨0, 0, 0, 0⟩ { DnsReport.zero with logindex := 17 } "query\n".toList
      (by decide)).2.2.2.2.2.2.1⟩

/-! ## The clamp after a sleep -/

theorem clamp_slot_keepalive (cfg : Config) (st : Monitor) (j i : Nat) :
    ((clamp_slot cfg st j).w i).keepalive
      = if i = j then min (st.w i).keepalive cfg.WORKER_KEEPALIVE_AFTER_SLEEP
        else (st.w i).keepalive := by
  unfold clamp_slot
  by_cases hij : i = j
  · subst hij
    by_cases h : (st.w i).keepalive > cfg.WORKER_KEEPALIVE_AFTER_SLEEP
    · simp [h, setAt]; omega
    · simp [h]; omega
  · by_cases h : (st.w j).keepalive > cfg.WORKER_KEEPALIVE_AFTER_SLEEP
    · simp [h, hij, setAt]
    · simp [h, hij]

theorem clamp_loop_keepalive (cfg : Config) (slots : List Nat) (st : Monitor) (i : Nat) :
    ((slots.foldl (clamp_slot cfg) st).w i).keepalive
      = if i ∈ slots then min (st.w i).keepalive cfg.WORKER_KEEPALIVE_AFTER_SLEEP
        else (st.w i).keepalive := by
  induction slots generalizing st with
  | nil => simp
  | cons j rest ih =>
    rw [List.foldl_cons, ih, clamp_slot_keepalive]
    by_cases hij : i = j
    · subst hij
      by_cases hr : i ∈ rest <;> simp [hr]
    · by_cases hr : i ∈ rest <;> simp [hr, hij]

/-- C5: on a timeout tick whose wall-clock difference since the last tick
exceeds `OUT_OF_SLEEP`, the clamp step leaves every slot `i < arg_workers` with
keepalive counter `min(old, WORKER_KEEPALIVE_AFTER_SLEEP)`: a counter above the
ceiling becomes the ceiling, a counter at or below it is unchanged, and no
counter of any slot is increased. -/
theorem sleep_clamp_is_min (cfg : Config) (ts : Int) (st : Monitor) (i : Nat)
    (hi : i < cfg.arg_workers) (hjump : ts - st.timestamp > cfg.OUT_OF_SLEEP) :
    ((sleep_clamp cfg ts st).w i).keepalive
        = min (st.w i).keepalive cfg.WORKER_KEEPALIVE_AFTER_SLEEP
    ∧ ((st.w i).keepalive > cfg.WORKER_KEEPALIVE_AFTER_SLEEP →
        ((sleep_clamp cfg ts st).w i).keepalive = cfg.WORKER_KEEPALIVE_AFTER_SLEEP)
    ∧ ((st.w i).keepalive ≤ cfg.WORKER_KEEPALIVE_AFTER_SLEEP →
        ((sleep_clamp cfg ts st).w i).keepalive = (st.w i).keepalive)
    ∧ ∀ j, ((sleep_clamp cfg ts st).w j).keepalive ≤ (st.w j).keepalive := by
  have hall : ∀ j, ((sleep_clamp cfg ts st).w j).keepalive
      = if j ∈ List.range cfg.arg_workers
        then min (st.w j).keepalive cfg.WORKER_KEEPALIVE_AFTER_SLEEP
        else (st.w j).keepalive := by
    intro j
    simp only [sleep_clamp, hjump, if_true]
    exact clamp_loop_keepalive cfg _ st j
  have hmem : i ∈ List.range cfg.arg_workers := List.mem_range.2 hi
  have hmin := hall i
  simp only [hmem, if_true] at hmin
  refine ⟨hmin, ?_, ?_, ?_⟩
  · intro h; rw [hmin]; omega
  · intro h; rw [hmin]; omega
  · intro j
    rw [hall j]
    split <;> omega

/-- Witness of `sleep_clamp_is_min`: a tick 50 seconds after the last one. -/
theorem sleep_clamp_is_min_witness :
    (1 < test_cfg.arg_workers ∧ (150 : Int) - test_state.timestamp > test_cfg.OUT_OF_SLEEP)
    ∧ ((sleep_clamp test_cfg 150 test_state).w 1).keepalive
        = min (test_state.w 1).keepalive test_cfg.WORKER_KEEPALIVE_AFTER_SLEEP :=
  ⟨by decide, (sleep_clamp_is_min test_cfg 150 test_state 1 (by decide) (by decide)).1⟩

/-! ## Messages -/

theorem strncmp_eq_append (p rest q : CStr) (n : Nat) (h : n ≤ p.length) :
    strncmp_eq (p ++ rest) q n = strncmp_eq p q n := by
  simp [strncmp_eq, List.take_append_of_le_length h]

/-- C8: a length-valid message that starts with `"worker keepalive"`, read from
the ready slot `i`, sets the keepalive counter of slot `i` to
`WORKER_KEEPALIVE_SHUTDOWN` and changes nothing else: counters, encryption
flags, the other fields of slot `i`, the other slots, the shared report, the
death flag and the trace of outside effects stay as they were. -/
theorem keepalive_message_frame (cfg : Config) (env : Env) (rset : Int → Bool) (i : Nat)
    (st : Monitor)
    (hready : rset (st.w i).fd0 = true)
    (hread : (env.read (st.w i).fd0).1 ≠ -1)
    (hlen : (env.read (st.w i).fd0).1 = (env.read (st.w i).fd0).2.h_len)
    (htext : "worker keepalive".toList
      <+: msg_text cfg (env.read (st.w i).fd0).1 (env.read (st.w i).fd0).2) :
    ∃ st1, read_slot cfg env rset i st = some st1
      ∧ (st1.w i).keepalive = cfg.WORKER_KEEPALIVE_SHUTDOWN
      ∧ (st1.w i).pid = (st.w i).pid ∧ (st1.w i).fd0 = (st.w i).fd0
      ∧ (st1.w i).fd1 = (st.w i).fd1
      ∧ (∀ j, j ≠ i → st1.w j = st.w j)
      ∧ st1.stats = st.stats
      ∧ st1.encrypted = st.encrypted
      ∧ st1.report = st.report
      ∧ st1.got_SIGCHLD = st.got_SIGCHLD
      ∧ st1.timestamp = st.timestamp
      ∧ st1.trace = st.trace := by
  obtain ⟨rest, hrest⟩ := htext
  have h1 : strncmp_eq ("worker keepalive".toList ++ rest) "Stats: ".toList 7 = false := by
    rw [strncmp_eq_append _ _ _ _ (by decide)]; decide
  have h2 : strncmp_eq ("worker keepalive".toList ++ rest) "Request: ".toList 9 = false := by
    rw [strncmp_eq_append _ _ _ _ (by decide)]; decide
  have h3 : strncmp_eq ("worker keepalive".toList ++ rest) "worker keepalive".toList 16
      = true := by
    rw [strncmp_eq_append _ _ _ _ (by decide)]; decide
  refine ⟨{ st with w := setAt st.w i ({ (st.w i) with
      keepalive := cfg.WORKER_KEEPALIVE_SHUTDOWN }) }, ?_, ?_, ?_, ?_, ?_, ?_, rfl, rfl, rfl,
      rfl, rfl, rfl⟩
  · simp only [read_slot, hready, if_true, hread, if_false, ← hlen, ne_eq, not_true_eq_false,
      dispatch, ← hrest, h1, h2, h3, Bool.false_eq_true]
  · simp [setAt]
  · simp [setAt]
  · simp [setAt]
  · simp [setAt]
  · intro j hj; simp [setAt, hj]

/-- Witness of `keepalive_message_frame`: slot 1 sends `"worker keepalive"`. -/
theorem keepalive_message_frame_witness :
    (((fun _ => true) : Int → Bool) (test_state.w 1).fd0 = true
      ∧ ((test_env Pselect.timeout (test_msg "worker keepalive")).read
          (test_state.w 1).fd0).1 ≠ -1)
    ∧ ∃ st1, read_slot test_cfg (test_env Pselect.timeout (test_msg "worker keepalive"))
          (fun _ => true) 1 { test_state with w := fun _ => ⟨7, 1, 12, 13⟩ } = some st1
        ∧ (st1.w 1).keepalive = 3 :=
  ⟨by decide,
    (keepalive_message_frame test_cfg (test_env Pselect.timeout (test_msg "worker keepalive"))
      (fun _ => true) 1 { test_state with w := fun _ => ⟨7, 1, 12, 13⟩ } rfl (by decide)
      (by decide) (by decide)).imp (fun _ h => ⟨h.1, h.2.1⟩)⟩

theorem for_slots_append (body : Nat → Monitor → Option Monitor) (xs ys : List Nat)
    (st st1 : Monitor) (h : for_slots body xs st = some st1) :
    for_slots body (xs ++ ys) st = for_slots body ys st1 := by
  induction xs generalizing st with
  | nil =>
    simp only [for_slots, Option.some.injEq] at h
    subst h; rfl
  | cons x rest ih =>
    simp only [List.cons_append, for_slots] at h ⊢
    cases hb : body x st with
    | none => rw [hb] at h; simp at h
    | some s => rw [hb] at h; simp only [] at h ⊢; exact ih s h

theorem range_split (n i : Nat) (hi : i < n) :
    List.range n = List.range i ++ i :: List.range' (i + 1) (n - (i + 1)) := by
  rw [List.range_eq_range', List.range_eq_range', ← List.range'_succ i (n - (i + 1)) 1]
  have h := List.range'_append_1 0 i (n - (i + 1) + 1)
  rw [Nat.zero_add] at h
  rw [h]
  congr 1
  omega

/-- C4: when the pass over the ready descriptors has reached slot `i` in state
`st`, the descriptor of slot `i` is ready and the message read from it has a
declared length different from the number of bytes read, the message is only
reported with `logprintf`: the aggregate counters, the shared report (header,
cursor and every ring entry), every slot's keepalive counter and every
encryption flag are unchanged, and the pass goes on with the slots after `i`. -/
theorem invalid_length_dropped (cfg : Config) (env : Env) (rset : Int → Bool) (i : Nat)
    (st0 st : Monitor)
    (hi : i < cfg.arg_workers)
    (hprev : for_slots (read_slot cfg env rset) (List.range i) st0 = some st)
    (hready : rset (st.w i).fd0 = true)
    (hread : (env.read (st.w i).fd0).1 ≠ -1)
    (hbad : (env.read (st.w i).fd0).1 ≠ (env.read (st.w i).fd0).2.h_len) :
    ∃ st1, read_slot cfg env rset i st = some st1
      ∧ st1.stats = st.stats
      ∧ st1.report.logindex = st.report.logindex
      ∧ (∀ j, st1.report.logentry j = st.report.logentry j)
      ∧ st1.report = st.report
      ∧ (∀ j, (st1.w j).keepalive = (st.w j).keepalive)
      ∧ (∀ j, st1.encrypted j = st.encrypted j)
      ∧ st1.w = st.w
      ∧ st1.trace = st.trace
          ++ [Event.logprintf "Error: log message with an invalid length\n".toList]
      ∧ read_ready cfg env rset st0
          = for_slots (read_slot cfg env rset)
              (List.range' (i + 1) (cfg.arg_workers - (i + 1))) st1 := by
  have hstep : read_slot cfg env rset i st
      = some (logprintf "Error: log message with an invalid length\n".toList st) := by
    simp only [read_slot, hready, if_true, hread, if_false, hbad, ne_eq, not_false_eq_true]
  refine ⟨_, hstep, rfl, rfl, fun _ => rfl, rfl, fun _ => rfl, fun _ => rfl, rfl, rfl, ?_⟩
  rw [read_ready, range_split cfg.arg_workers i hi, for_slots_append _ _ _ _ _ hprev]
  simp only [for_slots, hstep]

/-- Witness of `invalid_length_dropped`: slot 0 delivers a datagram with a wrong
declared length; slot 1 is still read in the same pass. -/
theorem invalid_length_dropped_witness :
    (0 < test_cfg.arg_workers
      ∧ ((test_env Pselect.timeout (bad_msg "Stats: rx 5")).read (test_state.w 0).fd0).1
          ≠ ((test_env Pselect.timeout (bad_msg "Stats: rx 5")).read (test_state.w 0).fd0).2.h_len)
    ∧ ∃ st1, read_slot test_cfg (test_env Pselect.timeout (bad_msg "Stats: rx 5"))
          (fun fd => fd = 10) 0 test_state = some st1
        ∧ st1.stats = test_state.stats :=
  ⟨by decide,
    (invalid_length_dropped test_cfg (test_env Pselect.timeout (bad_msg "Stats: rx 5"))
      (fun fd => fd = 10) 0 test_state test_state (by decide) rfl (by decide) (by decide)
      (by decide)).imp (fun _ h => ⟨h.1, h.2.1⟩)⟩

/-! ## Defects -/

/-- C7 on the code: with the death flag set at the start of a pass and the
worker of slot 0 exited, a pass in which `pselect` times out handles the
timeout tick (the keepalive counters go down), launches nothing, and leaves the
flag set; and the pass that `pselect` ends with `EINTR`, which is how the
signal arrives, reaps nothing either and leaves the flag set. -/
theorem timeout_handled_with_death_pending :
    pending_state.got_SIGCHLD = true
    ∧ timeout_env.waitpid_nohang (pending_state.w 0).pid = (pending_state.w 0).pid
    ∧ (monitor_iteration test_cfg timeout_env pending_state).map
        (fun s => (s.got_SIGCHLD, (s.w 0).pid, (s.w 0).keepalive, (s.w 1).keepalive, s.trace))
      = some (true, 500, 2, 2, [])
    ∧ (monitor_iteration test_cfg
        { timeout_env with pselect := Pselect.eintr, sigchld := true } test_state).map
        (fun s => (s.got_SIGCHLD, (s.w 0).pid, s.trace))
      = some (true, 500, []) := by
  decide

/-- C9 on the code: the payload `"Stats: rx 5, dropped x"` adds 5 to `rx`, and
adds to `drop`, `fallback` and `cached` whatever the uninitialised local `s`
held (here 7, 9 and 11), not zero. -/
theorem malformed_stats_add_stack_contents :
    (dispatch test_cfg (test_env Pselect.timeout (test_msg "")) 0
        "Stats: rx 5, dropped x".toList test_state).map (fun s => s.stats)
      = some { rx := 5, drop := 7, fallback := 9, cached := 11 } := by
  decide

/-! ## Printing and scanning numbers -/

theorem digitChar_isdigit (m : Nat) (h : m < 10) :
    isdigit (Nat.digitChar m) = true ∧ (Nat.digitChar m).toNat - '0'.toNat = m
      ∧ isspace (Nat.digitChar m) = false ∧ Nat.digitChar m ≠ '-' ∧ Nat.digitChar m ≠ '+' := by
  interval_cases m <;> decide

theorem scan_digits_fmt_u_aux (fuel : Nat) :
    ∀ (n : Nat) (acc rest : CStr), n < fuel →
      ∃ k, ∀ a, scan_digits (fmt_u_aux fuel n acc ++ rest) a
        = scan_digits (acc ++ rest) (a * 10 ^ k + n) := by
  induction fuel with
  | zero => intro n acc rest h; omega
  | succ fuel ih =>
    intro n acc rest h
    by_cases h10 : n < 10
    · refine ⟨1, fun a => ?_⟩
      obtain ⟨hd, hv, _⟩ := digitChar_isdigit n h10
      simp only [fmt_u_aux, h10, if_true, List.cons_append, scan_digits, hd, hv, pow_one]
    · obtain ⟨k, hk⟩ := ih (n / 10) (Nat.digitChar (n % 10) :: acc) rest (by omega)
      refine ⟨k + 1, fun a => ?_⟩
      obtain ⟨hd, hv, _⟩ := digitChar_isdigit (n % 10) (Nat.mod_lt _ (by decide))
      simp only [fmt_u_aux, h10, if_false]
      rw [hk a]
      simp only [List.cons_append, scan_digits, hd, if_true, hv]
      congr 1
      rw [pow_succ, ← Nat.mul_assoc]
      generalize a * 10 ^ k = q
      omega

theorem scan_digits_fmt_u (n : Nat) (rest : CStr)
    (hrest : ∀ a, scan_digits rest a = (a, rest)) :
    scan_digits (fmt_u n ++ rest) 0 = (n, rest) := by
  obtain ⟨k, hk⟩ := scan_digits_fmt_u_aux (n + 1) n [] rest (Nat.lt_succ_self n)
  rw [fmt_u, hk 0]
  simp [hrest]

theorem fmt_u_aux_head (fuel : Nat) :
    ∀ (n : Nat) (acc : CStr), (∃ m cs, m < 10 ∧ acc = Nat.digitChar m :: cs) →
      ∃ m cs, m < 10 ∧ fmt_u_aux fuel n acc = Nat.digitChar m :: cs := by
  induction fuel with
  | zero => intro n acc h; simpa [fmt_u_aux] using h
  | succ fuel ih =>
    intro n acc _
    by_cases h10 : n < 10
    · exact ⟨n, acc, h10, by simp [fmt_u_aux, h10]⟩
    · simp only [fmt_u_aux, h10, if_false]
      exact ih _ _ ⟨n % 10, acc, Nat.mod_lt _ (by decide), rfl⟩

theorem fmt_u_head (n : Nat) : ∃ m cs, m < 10 ∧ fmt_u n = Nat.digitChar m :: cs := by
  by_cases h10 : n < 10
  · exact ⟨n, [], h10, by simp [fmt_u, fmt_u_aux, h10]⟩
  · simp only [fmt_u, fmt_u_aux, h10, if_false]
    exact fmt_u_aux_head _ _ _ ⟨n % 10, [], Nat.mod_lt _ (by decide), rfl⟩

theorem skip_space_fmt_u (n : Nat) (rest : CStr) :
    skip_space (fmt_u n ++ rest) = fmt_u n ++ rest := by
  obtain ⟨m, cs, hm, hcs⟩ := fmt_u_head n
  obtain ⟨_, _, hs, _⟩ := digitChar_isdigit m hm
  rw [hcs]
  simp [skip_space, hs]

theorem scan_sign_digit (m : Nat) (hm : m < 10) (cs : CStr) :
    scan_sign (Nat.digitChar m :: cs) = (false, Nat.digitChar m :: cs) := by
  obtain ⟨_, _, _, hminus, hplus⟩ := digitChar_isdigit m hm
  unfold scan_sign
  split
  · rename_i heq
    simp only [List.cons.injEq] at heq
    exact absurd heq.1 hminus
  · rename_i heq
    simp only [List.cons.injEq] at heq
    exact absurd heq.1 hplus
  · rfl

theorem scan_u_fmt_u (n : Nat) (rest : CStr)
    (hrest : ∀ a, scan_digits rest a = (a, rest)) :
    scan_u (fmt_u n ++ rest) = some (n % 2 ^ 32, rest) := by
  have hscan := scan_digits_fmt_u n rest hrest
  obtain ⟨m, cs, hm, hcs⟩ := fmt_u_head n
  obtain ⟨hd, _, _, _, _⟩ := digitChar_isdigit m hm
  unfold scan_u
  rw [skip_space_fmt_u]
  rw [hcs] at hscan ⊢
  simp only [List.cons_append] at hscan ⊢
  simp only [scan_sign_digit m hm, hd, if_true, hscan, Bool.false_eq_true, if_false]

theorem scan_digits_nil (a : Nat) : scan_digits [] a = (a, []) := rfl

theorem scan_digits_comma (cs : CStr) (a : Nat) :
    scan_digits (',' :: cs) a = (a, ',' :: cs) := by
  simp [scan_digits, isdigit]

theorem stats_format_directives :
    parse_format STATS_FORMAT
      = [Directive.lit 'S', Directive.lit 't', Directive.lit 'a', Directive.lit 't',
         Directive.lit 's', Directive.lit ':', Directive.space,
         Directive.lit 'r', Directive.lit 'x', Directive.space, Directive.conv_u,
         Directive.lit ',', Directive.space,
         Directive.lit 'd', Directive.lit 'r', Directive.lit 'o', Directive.lit 'p',
         Directive.lit 'p', Directive.lit 'e', Directive.lit 'd', Directive.space,
         Directive.conv_u,
         Directive.lit ',', Directive.space,
         Directive.lit 'f', Directive.lit 'a', Directive.lit 'l', Directive.lit 'l',
         Directive.lit 'b', Directive.lit 'a', Directive.lit 'c', Directive.lit 'k',
         Directive.space, Directive.conv_u,
         Directive.lit ',', Directive.space,
         Directive.lit 'c', Directive.lit 'a', Directive.lit 'c', Directive.lit 'h',
         Directive.lit 'e', Directive.lit 'd', Directive.space, Directive.conv_u] := by
  decide

theorem sscanf_stats_payload (a b c d : Nat) :
    sscanf (parse_format STATS_FORMAT) (stats_payload a b c d)
      = [a % 2 ^ 32, b % 2 ^ 32, c % 2 ^ 32, d % 2 ^ 32] := by
  have h1 : "Stats: rx ".toList = ['S', 't', 'a', 't', 's', ':', ' ', 'r', 'x', ' '] := rfl
  have h2 : ", dropped ".toList = [',', ' ', 'd', 'r', 'o', 'p', 'p', 'e', 'd', ' '] := rfl
  have h3 : ", fallback ".toList
      = [',', ' ', 'f', 'a', 'l', 'l', 'b', 'a', 'c', 'k', ' '] := rfl
  have h4 : ", cached ".toList = [',', ' ', 'c', 'a', 'c', 'h', 'e', 'd', ' '] := rfl
  have hd : scan_u (fmt_u d) = some (d % 2 ^ 32, []) := by
    have := scan_u_fmt_u d [] scan_digits_nil
    rwa [List.append_nil] at this
  have hsd : skip_space (fmt_u d) = fmt_u d := by
    have := skip_space_fmt_u d []
    rwa [List.append_nil] at this
  rw [stats_format_directives, stats_payload, h1, h2, h3, h4]
  simp only [List.append_assoc, List.cons_append, List.nil_append]
  simp only [sscanf, skip_space, isspace,
    if_true, if_false, skip_space_fmt_u, scan_u_fmt_u _ _ (scan_digits_comma _), hd, hsd,
    decide_True, decide_False, Bool.or_self, Bool.or_true, Bool.true_or, Bool.or_false,
    Char.reduceEq, Bool.false_eq_true]

theorem stats_payload_is_stats (a b c d : Nat) :
    strncmp_eq (stats_payload a b c d) "Stats: ".toList 7 = true := by
  have h : stats_payload a b c d = "Stats: rx ".toList ++ (fmt_u a ++ ", dropped ".toList
      ++ fmt_u b ++ ", fallback ".toList ++ fmt_u c ++ ", cached ".toList ++ fmt_u d) := by
    simp only [stats_payload, List.append_assoc]
  rw [h, strncmp_eq_append _ _ _ _ (by decide)]
  decide

theorem sscanf_stats_payload_fields (s : Stats) (a b c d : Nat)
    (ha : a < 2 ^ 32) (hb : b < 2 ^ 32) (hc : c < 2 ^ 32) (hd : d < 2 ^ 32) :
    sscanf_stats s (stats_payload a b c d) = { rx := a, drop := b, fallback := c, cached := d } := by
  simp only [sscanf_stats, sscanf_stats_payload, Nat.mod_eq_of_lt ha, Nat.mod_eq_of_lt hb,
    Nat.mod_eq_of_lt hc, Nat.mod_eq_of_lt hd]

theorem store_stats_some (cfg : Config) (env : Env) (s : Monitor) (srv : DnsServer)
    (hs : env.dns_get_server = some srv) :
    ∃ st1, store_stats cfg env s = some st1
      ∧ st1.stats = s.stats ∧ st1.encrypted = s.encrypted ∧ st1.w = s.w
      ∧ st1.trace = s.trace ∧ st1.got_SIGCHLD = s.got_SIGCHLD ∧ st1.timestamp = s.timestamp
      ∧ st1.report.logindex = s.report.logindex ∧ st1.report.logentry = s.report.logentry
      ∧ st1.report.header = snprintf_s MAX_HEADER
          (header_line1 env.getpid s.stats
            ++ header_line2 srv.name (encstatus cfg.arg_workers s.encrypted)) := by
  simp only [store_stats, shmem_store_stats, hs]
  exact ⟨_, rfl, rfl, rfl, rfl, rfl, rfl, rfl, rfl, rfl, rfl⟩

/-- C2: a length-valid message with the well-formed payload
`"Stats: rx a, dropped b, fallback c, cached d"`, read from a ready slot, leaves
each of the four aggregate counters equal to its previous value plus the
corresponding delta in 32-bit unsigned arithmetic, whatever the previous values
were; and from zero, the messages `rx 5, dropped 1, fallback 0, cached 2` and
`rx 3, dropped 0, fallback 1, cached 0` give `rx 8, dropped 1, fallback 1,
cached 2`. -/
theorem stats_message_accumulates (cfg : Config) (env : Env) (rset : Int → Bool) (i : Nat)
    (st : Monitor) (a b c d : Nat)
    (hready : rset (st.w i).fd0 = true)
    (hread : (env.read (st.w i).fd0).1 ≠ -1)
    (hlen : (env.read (st.w i).fd0).1 = (env.read (st.w i).fd0).2.h_len)
    (htext : msg_text cfg (env.read (st.w i).fd0).1 (env.read (st.w i).fd0).2
      = stats_payload a b c d)
    (ha : a < 2 ^ 32) (hb : b < 2 ^ 32) (hc : c < 2 ^ 32) (hd : d < 2 ^ 32)
    (hsrv : env.dns_get_server ≠ none) :
    (∃ st1, read_slot cfg env rset i st = some st1
      ∧ st1.stats.rx = (st.stats.rx + a) % 2 ^ 32
      ∧ st1.stats.drop = (st.stats.drop + b) % 2 ^ 32
      ∧ st1.stats.fallback = (st.stats.fallback + c) % 2 ^ 32
      ∧ st1.stats.cached = (st.stats.cached + d) % 2 ^ 32)
    ∧ ((read_slot test_cfg
          (test_env Pselect.timeout (test_msg "Stats: rx 5, dropped 1, fallback 0, cached 2"))
          (fun _ => true) 0 test_state).bind
        (read_slot test_cfg
          (test_env Pselect.timeout (test_msg "Stats: rx 3, dropped 0, fallback 1, cached 0"))
          (fun _ => true) 1)).map (fun s => s.stats)
      = some { rx := 8, drop := 1, fallback := 1, cached := 2 } := by
  refine ⟨?_, by decide⟩
  cases hs : env.dns_get_server with
  | none => exact absurd hs hsrv
  | some srv =>
    have hstep : read_slot cfg env rset i st
        = store_stats cfg env { st with
            stats := add_stats st.stats { rx := a, drop := b, fallback := c, cached := d } } := by
      simp only [read_slot, hready, if_true, hread, if_false, ← hlen, ne_eq, not_true_eq_false,
        dispatch, htext, stats_payload_is_stats,
        sscanf_stats_payload_fields _ a b c d ha hb hc hd]
    obtain ⟨st1, h1, h2, _⟩ := store_stats_some cfg env _ srv hs
    refine ⟨st1, hstep.trans h1, ?_⟩
    rw [h2]
    exact ⟨rfl, rfl, rfl, rfl⟩

/-- Witness of `stats_message_accumulates`: slot 0 reports `rx 5, dropped 1,
fallback 0, cached 2`. -/
theorem stats_message_accumulates_witness :
    (msg_text test_cfg
        (test_msg "Stats: rx 5, dropped 1, fallback 0, cached 2").1
        (test_msg "Stats: rx 5, dropped 1, fallback 0, cached 2").2 = stats_payload 5 1 0 2
      ∧ (test_env Pselect.timeout
          (test_msg "Stats: rx 5, dropped 1, fallback 0, cached 2")).dns_get_server ≠ none)
    ∧ ∃ st1, read_slot test_cfg
          (test_env Pselect.timeout (test_msg "Stats: rx 5, dropped 1, fallback 0, cached 2"))
          (fun _ => true) 0 test_state = some st1
        ∧ st1.stats.rx = (test_state.stats.rx + 5) % 2 ^ 32 :=
  ⟨by decide,
    (stats_message_accumulates test_cfg
      (test_env Pselect.timeout (test_msg "Stats: rx 5, dropped 1, fallback 0, cached 2"))
      (fun _ => true) 0 test_state 5 1 0 2 rfl (by decide) (by decide) (by decide)
      (by decide) (by decide) (by decide) (by decide) (by decide)).1.imp
      (fun _ h => ⟨h.1, h.2.1⟩)⟩

/-! ## The header -/

theorem enc_loop_all (encrypted : Nat → Int) (remaining : Nat) :
    ∀ i, enc_loop encrypted remaining i = i + remaining
      ↔ ∀ j, i ≤ j → j < i + remaining → encrypted j ≠ 0 := by
  induction remaining with
  | zero => intro i; simp only [enc_loop, Nat.add_zero, true_iff]; intro j h1 h2; omega
  | succ k ih =>
    intro i
    simp only [enc_loop]
    by_cases h0 : encrypted i = 0
    · simp only [h0, if_true]
      constructor
      · intro h; omega
      · intro h; exact absurd h0 (h i (Nat.le_refl _) (by omega))
    · simp only [h0, if_false]
      rw [show i + (k + 1) = i + 1 + k by omega, ih (i + 1)]
      constructor
      · intro h j h1 h2
        by_cases hj : j = i
        · subst hj; exact h0
        · exact h j (by omega) h2
      · intro h j h1 h2
        exact h j (by omega) h2

theorem encstatus_encrypted (n : Nat) (encrypted : Nat → Int) :
    (encstatus n encrypted = "ENCRYPTED".toList ↔ ∀ i, i < n → encrypted i ≠ 0)
    ∧ (encstatus n encrypted = "NOT ENCRYPTED".toList ↔ ∃ i, i < n ∧ encrypted i = 0)
    ∧ (encstatus n encrypted).length ≤ 13 := by
  have h := enc_loop_all encrypted n 0
  simp only [Nat.zero_add, Nat.zero_le, true_implies] at h
  unfold encstatus
  by_cases hall : enc_loop encrypted n 0 = n
  · simp only [hall, if_true]
    refine ⟨⟨fun _ => h.1 hall, fun _ => trivial⟩, ⟨fun hne => absurd hne (by decide), ?_⟩,
      by decide⟩
    rintro ⟨i, hi, h0⟩
    exact absurd h0 (h.1 hall i hi)
  · simp only [hall, if_false]
    refine ⟨⟨fun hne => absurd hne (by decide), fun hx => absurd (h.2 hx) hall⟩,
      ⟨fun _ => ?_, fun _ => trivial⟩, by decide⟩
    by_contra hno
    exact hall (h.2 (fun i hi h0 => hno ⟨i, hi, h0⟩))

theorem fmt_u_aux_length (fuel : Nat) :
    ∀ (n k : Nat) (acc : CStr), 1 ≤ k → n < 10 ^ k →
      (fmt_u_aux fuel n acc).length ≤ k + acc.length := by
  induction fuel with
  | zero => intro n k acc _ _; simp [fmt_u_aux]
  | succ fuel ih =>
    intro n k acc hk hn
    by_cases h10 : n < 10
    · simp only [fmt_u_aux, h10, if_true, List.length_cons]; omega
    · simp only [fmt_u_aux, h10, if_false]
      have hk2 : 2 ≤ k := by
        by_contra hlt
        have : k = 1 := by omega
        subst this
        simp at hn
        exact h10 hn
      have hdiv : n / 10 < 10 ^ (k - 1) := by
        rw [Nat.div_lt_iff_lt_mul (by decide)]
        have : 10 ^ k = 10 ^ (k - 1) * 10 := by
          rw [← pow_succ]; congr 1; omega
        omega
      have := ih (n / 10) (k - 1) (Nat.digitChar (n % 10) :: acc) (by omega) hdiv
      simp only [List.length_cons] at this
      omega

theorem fmt_u_length (n : Nat) (h : n < 2 ^ 32) : (fmt_u n).length ≤ 10 := by
  have := fmt_u_aux_length (n + 1) n 10 [] (by decide) (by omega)
  simpa [fmt_u] using this

theorem fmt_d_length (i : Int) (h1 : -2 ^ 31 ≤ i) (h2 : i < 2 ^ 31) : (fmt_d i).length ≤ 11 := by
  unfold fmt_d
  split
  · have := fmt_u_length (-i).toNat (by omega)
    simp only [List.length_cons]; omega
  · have := fmt_u_length i.toNat (by omega)
    omega

theorem header_line1_length (pid : Int) (stats : Stats)
    (h1 : -2 ^ 31 ≤ pid) (h2 : pid < 2 ^ 31)
    (hrx : stats.rx < 2 ^ 32) (hdrop : stats.drop < 2 ^ 32)
    (hfb : stats.fallback < 2 ^ 32) (hc : stats.cached < 2 ^ 32) :
    (header_line1 pid stats).length ≤ 97 := by
  have a := fmt_d_length pid h1 h2
  have b := fmt_u_length _ hrx
  have c := fmt_u_length _ hdrop
  have d := fmt_u_length _ hfb
  have e := fmt_u_length _ hc
  have l1 : "PID ".toList.length = 4 := rfl
  have l2 : ", requests ".toList.length = 11 := rfl
  have l3 : ", dropped ".toList.length = 10 := rfl
  have l4 : ", fallback ".toList.length = 11 := rfl
  have l5 : ", cached ".toList.length = 9 := rfl
  have l6 : "\n".toList.length = 1 := rfl
  simp only [header_line1, List.length_append, l1, l2, l3, l4, l5, l6]
  omega

theorem store_stats_inv (cfg : Config) (env : Env) (s s1 : Monitor)
    (h : store_stats cfg env s = some s1) :
    ∃ srv, env.dns_get_server = some srv
      ∧ s1.stats = s.stats ∧ s1.encrypted = s.encrypted
      ∧ s1.report.header = snprintf_s MAX_HEADER
          (header_line1 env.getpid s.stats
            ++ header_line2 srv.name (encstatus cfg.arg_workers s.encrypted)) := by
  cases hs : env.dns_get_server with
  | none => simp [store_stats, shmem_store_stats, hs] at h
  | some srv =>
    obtain ⟨st1, h1, h2, h3, _, _, _, _, _, _, h4⟩ := store_stats_some cfg env s srv hs
    rw [h1] at h
    simp only [Option.some.injEq] at h
    subst h
    exact ⟨srv, rfl, h2, h3, h4⟩

theorem dispatch_ssl (cfg : Config) (env : Env) (i : Nat) (tag rest : CStr) (v : Int)
    (st st1 : Monitor)
    (htag : (tag = "SSL connection opened".toList ∧ v = 1)
      ∨ (tag = "SSL connection closed".toList ∧ v = 0))
    (h : dispatch cfg env i (tag ++ rest) st = some st1) :
    ∃ s1, store_stats cfg env { st with encrypted := setAt st.encrypted i v } = some s1
      ∧ st1.stats = s1.stats ∧ st1.encrypted = s1.encrypted
      ∧ st1.report.header = s1.report.header := by
  have h1 : strncmp_eq (tag ++ rest) "Stats: ".toList 7 = false := by
    rcases htag with ⟨rfl, _⟩ | ⟨rfl, _⟩ <;>
      (rw [strncmp_eq_append _ _ _ _ (by decide)]; decide)
  have h2 : strncmp_eq (tag ++ rest) "Request: ".toList 9 = false := by
    rcases htag with ⟨rfl, _⟩ | ⟨rfl, _⟩ <;>
      (rw [strncmp_eq_append _ _ _ _ (by decide)]; decide)
  have h3 : strncmp_eq (tag ++ rest) "worker keepalive".toList 16 = false := by
    rcases htag with ⟨rfl, _⟩ | ⟨rfl, _⟩ <;>
      (rw [strncmp_eq_append _ _ _ _ (by decide)]; decide)
  have h4 : strncmp_eq (tag ++ rest) "SSL connection opened".toList 21
      = decide (tag = "SSL connection opened".toList) := by
    rcases htag with ⟨rfl, _⟩ | ⟨rfl, _⟩ <;>
      (rw [strncmp_eq_append _ _ _ _ (by decide)]; decide)
  have h5 : strncmp_eq (tag ++ rest) "SSL connection closed".toList 21
      = decide (tag = "SSL connection closed".toList) := by
    rcases htag with ⟨rfl, _⟩ | ⟨rfl, _⟩ <;>
      (rw [strncmp_eq_append _ _ _ _ (by decide)]; decide)
  simp only [dispatch, h1, h2, h3, h4, h5, Bool.false_eq_true, if_false] at h
  have hflag : (if decide (tag = "SSL connection opened".toList) = true then
        store_stats cfg env { st with encrypted := setAt st.encrypted i 1 }
      else if decide (tag = "SSL connection closed".toList) = true then
        store_stats cfg env { st with encrypted := setAt st.encrypted i 0 }
      else some st)
      = store_stats cfg env { st with encrypted := setAt st.encrypted i v } := by
    rcases htag with ⟨rfl, rfl⟩ | ⟨rfl, rfl⟩
    · simp
    · have : ¬ ("SSL connection closed".toList = "SSL connection opened".toList) := by decide
      simp [this]
  rw [hflag] at h
  cases hs : store_stats cfg env { st with encrypted := setAt st.encrypted i v } with
  | none => rw [hs] at h; simp at h
  | some s1 =>
    rw [hs] at h
    simp only [] at h
    by_cases hok : env.asprintf_ok = true
    · simp only [hok, if_true, Option.some.injEq] at h
      subst h
      exact ⟨s1, rfl, rfl, rfl, rfl⟩
    · simp [hok] at h

set_option maxRecDepth 100000 in
/-- C6, as stated, fails: with both encryption flags set and an upstream server
name of 120 characters, `shmem_store_stats` writes a header in which the
status `"ENCRYPTED"` does not occur. -/
theorem header_without_status :
    (∀ i, i < 2 → ((fun _ => 1) : Nat → Int) i ≠ 0)
    ∧ (shmem_store_stats 4242 (some long_name_server) 2 (fun _ => 1)
        { rx := 8, drop := 1, fallback := 1, cached := 2 } DnsReport.zero).map
        (fun r => decide ("ENCRYPTED".toList <:+: r.header)) = some false := by
  refine ⟨fun i _ => by simp, ?_⟩
  decide

/-- C6, amended: for every state of the aggregate counters, the encryption
flags, the worker count and every upstream server name, `shmem_store_stats`
writes as header the first `MAX_HEADER - 1` (162) characters of
`"PID p, requests rx, dropped drop, fallback fb, cached c\n<name> <status>\n"`,
with the current values of the four counters and with status `"ENCRYPTED"`
exactly when `encrypted[i]` is non-zero for every slot `i < arg_workers` and
`"NOT ENCRYPTED"` otherwise.  With a 32-bit process id and 32-bit counters the
first line, and so the four counters, are always in the header; the status is
in the header in full when the server name has at most 50 characters.  After a
message that starts with `"Stats: "`, `"SSL connection opened"` or
`"SSL connection closed"` the header is the one for the counters and flags of
the new state. -/
theorem header_after_store_stats (pid : Int) (srv : DnsServer) (n : Nat)
    (encrypted : Nat → Int) (stats : Stats) (r : DnsReport)
    (hpid1 : -2 ^ 31 ≤ pid) (hpid2 : pid < 2 ^ 31)
    (hrx : stats.rx < 2 ^ 32) (hdrop : stats.drop < 2 ^ 32)
    (hfb : stats.fallback < 2 ^ 32) (hc : stats.cached < 2 ^ 32) :
    (∃ r1, shmem_store_stats pid (some srv) n encrypted stats r = some r1
      ∧ r1.header = (header_line1 pid stats
          ++ header_line2 srv.name (encstatus n encrypted)).take (MAX_HEADER - 1)
      ∧ header_line1 pid stats <+: r1.header
      ∧ (srv.name.length ≤ 50 → r1.header
          = header_line1 pid stats ++ header_line2 srv.name (encstatus n encrypted)))
    ∧ (encstatus n encrypted = "ENCRYPTED".toList ↔ ∀ i, i < n → encrypted i ≠ 0)
    ∧ (encstatus n encrypted = "NOT ENCRYPTED".toList ↔ ∃ i, i < n ∧ encrypted i = 0)
    ∧ ∀ (cfg : Config) (env : Env) (i : Nat) (text : CStr) (st st1 : Monitor),
        ("Stats: ".toList <+: text ∨ "SSL connection opened".toList <+: text
          ∨ "SSL connection closed".toList <+: text) →
        dispatch cfg env i text st = some st1 →
        ∃ server, env.dns_get_server = some server
          ∧ st1.report.header = (header_line1 env.getpid st1.stats
              ++ header_line2 server.name
                (encstatus cfg.arg_workers st1.encrypted)).take (MAX_HEADER - 1) := by
  have hl1 := header_line1_length pid stats hpid1 hpid2 hrx hdrop hfb hc
  have hst := encstatus_encrypted n encrypted
  refine ⟨⟨_, rfl, rfl, ?_, ?_⟩, hst.1, hst.2.1, ?_⟩
  · simp only [snprintf_s, MAX_HEADER]
    rw [List.take_append_eq_append_take, List.take_of_length_le (by omega)]
    exact List.prefix_append _ _
  · intro hname
    simp only [snprintf_s, MAX_HEADER]
    apply List.take_of_length_le
    have hs := hst.2.2
    have l1 : " ".toList.length = 1 := rfl
    have l2 : "\n".toList.length = 1 := rfl
    simp only [header_line2, List.length_append, l1, l2]
    omega
  · intro cfg env i text st st1 hpre hd
    rcases hpre with ⟨rest, hrest⟩ | ⟨rest, hrest⟩ | ⟨rest, hrest⟩
    · have h1 : strncmp_eq text "Stats: ".toList 7 = true := by
        rw [← hrest, strncmp_eq_append _ _ _ _ (by decide)]; decide
      simp only [dispatch, h1, if_true] at hd
      obtain ⟨server, hs, h2, h3, h4⟩ := store_stats_inv cfg env _ st1 hd
      exact ⟨server, hs, by rw [h4, h2, h3]; rfl⟩
    · rw [← hrest] at hd
      obtain ⟨s1, hs1, e1, e2, e3⟩ := dispatch_ssl cfg env i _ rest 1 st st1
        (Or.inl ⟨rfl, rfl⟩) hd
      obtain ⟨server, hs, h2, h3, h4⟩ := store_stats_inv cfg env _ s1 hs1
      exact ⟨server, hs, by rw [e3, h4, e1, e2, h2, h3]; rfl⟩
    · rw [← hrest] at hd
      obtain ⟨s1, hs1, e1, e2, e3⟩ := dispatch_ssl cfg env i _ rest 0 st st1
        (Or.inr ⟨rfl, rfl⟩) hd
      obtain ⟨server, hs, h2, h3, h4⟩ := store_stats_inv cfg env _ s1 hs1
      exact ⟨server, hs, by rw [e3, h4, e1, e2, h2, h3]; rfl⟩

/-- Witness of `header_after_store_stats`: two workers, one not encrypted. -/
theorem header_after_store_stats_witness :
    ((-2 : Int) ^ 31 ≤ 4242 ∧ (8 : Nat) < 2 ^ 32)
    ∧ (shmem_store_stats 4242 (some { name := "cloudflare".toList }) 2
        (fun i => if i = 1 then 1 else 0) { rx := 8, drop := 1, fallback := 1, cached := 2 }
        DnsReport.zero).map (fun r => r.header)
      = some "PID 4242, requests 8, dropped 1, fallback 1, cached 2\ncloudflare NOT ENCRYPTED\n".toList :=
  ⟨by decide, by
    obtain ⟨r1, h1, _, _, h4⟩ := (header_after_store_stats 4242 { name := "cloudflare".toList } 2
      (fun i => if i = 1 then 1 else 0) { rx := 8, drop := 1, fallback := 1, cached := 2 }
      DnsReport.zero (by decide) (by decide) (by decide) (by decide) (by decide)
      (by decide)).1
    rw [h1, Option.map_some', h4 (by decide)]
    decide⟩

/-! ## Keepalive expiry -/

theorem start_sandbox_ok (cfg : Config) (env : Env) (id : Nat) (st : Monitor)
    (hid : id < cfg.WORKERS_MAX) (hok : launch_ok env) :
    ∃ st1, start_sandbox cfg env id st = some st1
      ∧ slot_view id st1 = (cfg.WORKER_KEEPALIVE_SHUTDOWN, 0, launches id st.trace + 1)
      ∧ (∀ j, j ≠ id → slot_view j st1 = slot_view j st)
      ∧ st1.timestamp = st.timestamp := by
  obtain ⟨hsock, hclone⟩ := hok id
  have hnot : ¬ cfg.WORKERS_MAX ≤ id := by omega
  cases hs : env.socketpair id with
  | none => exact absurd hs hsock
  | some fds =>
    by_cases hfd : (st.w id).fd0 = 0 <;> cases hdbg : cfg.arg_debug <;>
      · simp only [start_sandbox, hnot, if_false, hfd, if_true, hs, hdbg, hclone,
          Bool.false_eq_true]
        refine ⟨_, rfl, ?_, ?_, rfl⟩
        · simp [slot_view, launches, emit, setAt, List.count_append, List.count_singleton]
        · intro j hj
          have hj2 : id ≠ j := fun h => hj h.symm
          simp [slot_view, launches, emit, setAt, List.count_append, List.count_singleton, hj,
            hj2]

theorem expire_slot_ok (cfg : Config) (env : Env) (j : Nat) (st : Monitor)
    (hj : j < cfg.WORKERS_MAX) (hok : launch_ok env) :
    ∃ st1, expire_slot cfg env j st = some st1
      ∧ slot_view j st1 = tick_view cfg (slot_view j st)
      ∧ (∀ i, i ≠ j → slot_view i st1 = slot_view i st)
      ∧ st1.timestamp = st.timestamp := by
  by_cases hexp : (st.w j).keepalive - 1 ≤ 0
  · obtain ⟨st1, h1, h2, h3, h4⟩ := start_sandbox_ok cfg env j
      (emit (Event.waitpid (st.w j).pid false) (emit (Event.kill (st.w j).pid Signal.SIGKILL)
        (logprintf ("Restarting worker process ".toList ++ fmt_d j ++ "\n".toList)
          { st with
            w := setAt st.w j { (st.w j) with keepalive := (st.w j).keepalive - 1 } })))
      hj hok
    refine ⟨st1, ?_, ?_, ?_, ?_⟩
    · simp only [expire_slot, setAt_same, hexp, if_true]
      simpa [emit, logprintf, setAt] using h1
    · rw [h2]
      simp [tick_view, slot_view, hexp, launches, emit, logprintf, List.count_append,
        List.count_singleton]
    · intro i hi
      rw [h3 i hi]
      simp [slot_view, launches, emit, logprintf, setAt, hi, List.count_append,
        List.count_singleton]
    · rw [h4]; rfl
  · refine ⟨{ st with
      w := setAt st.w j { (st.w j) with keepalive := (st.w j).keepalive - 1 } }, ?_, ?_, ?_, rfl⟩
    · simp only [expire_slot, setAt_same, hexp, if_false]
    · simp [tick_view, slot_view, hexp, setAt]
    · intro i hi
      simp [slot_view, setAt, hi]

theorem expire_loop_ok (cfg : Config) (env : Env) (hok : launch_ok env) (slots : List Nat) :
    ∀ st : Monitor, slots.Nodup → (∀ j ∈ slots, j < cfg.WORKERS_MAX) →
    ∃ st1, for_slots (expire_slot cfg env) slots st = some st1
      ∧ (∀ i, i ∈ slots → slot_view i st1 = tick_view cfg (slot_view i st))
      ∧ (∀ i, i ∉ slots → slot_view i st1 = slot_view i st)
      ∧ st1.timestamp = st.timestamp := by
  induction slots with
  | nil => intro st _ _; exact ⟨st, rfl, by simp, by simp, rfl⟩
  | cons j rest ih =>
    intro st hnd hlt
    obtain ⟨hjr, hnd2⟩ := List.nodup_cons.1 hnd
    obtain ⟨s1, h1, h2, h3, h4⟩ := expire_slot_ok cfg env j st
      (hlt j (List.mem_cons_self _ _)) hok
    obtain ⟨s2, g1, g2, g3, g4⟩ := ih s1 hnd2 (fun k hk => hlt k (List.mem_cons_of_mem _ hk))
    refine ⟨s2, by simp only [for_slots, h1, g1], ?_, ?_, by rw [g4, h4]⟩
    · intro i hi
      rcases List.mem_cons.1 hi with rfl | hi
      · rw [g3 i hjr, h2]
      · have hij : i ≠ j := fun h => hjr (h ▸ hi)
        rw [g2 i hi, h3 i hij]
    · intro i hi
      have hij : i ≠ j := fun h => hi (h ▸ List.mem_cons_self _ _)
      have hir : i ∉ rest := fun h => hi (List.mem_cons_of_mem _ h)
      rw [g3 i hir, h3 i hij]

theorem timeout_pass_ok (cfg : Config) (env : Env) (st : Monitor) (i : Nat)
    (hi : i < cfg.arg_workers) (hmax : cfg.arg_workers ≤ cfg.WORKERS_MAX)
    (hsel : env.pselect = Pselect.timeout) (hok : launch_ok env)
    (hjump : env.time_tick - st.timestamp ≤ cfg.OUT_OF_SLEEP) :
    ∃ st1, monitor_iteration cfg env st = some st1
      ∧ slot_view i st1 = tick_view cfg (slot_view i st)
      ∧ st1.timestamp = env.time_after := by
  have hnj : ¬ env.time_tick - st.timestamp > cfg.OUT_OF_SLEEP := by omega
  obtain ⟨s1, h1, h2, _, _⟩ := expire_loop_ok cfg env hok (List.range cfg.arg_workers)
    { st with got_SIGCHLD := st.got_SIGCHLD || env.sigchld } (List.nodup_range _)
    (fun j hj => by have := List.mem_range.1 hj; omega)
  refine ⟨{ s1 with timestamp := env.time_after }, ?_, ?_, rfl⟩
  · simp only [monitor_iteration, hsel, timeout_tick, sleep_clamp, hnj, if_false, h1]
  · have := h2 i (List.mem_range.2 hi)
    simpa [slot_view] using this

theorem no_sleep_jump_take (cfg : Config) (envs : List Env) :
    ∀ (ts : Int) (m : Nat), no_sleep_jump cfg ts envs → no_sleep_jump cfg ts (envs.take m) := by
  induction envs with
  | nil => intro ts m h; simpa using h
  | cons env rest ih =>
    intro ts m h
    cases m with
    | zero => simp [no_sleep_jump]
    | succ m =>
      simp only [List.take_succ_cons, no_sleep_jump] at h ⊢
      exact ⟨h.1, ih _ m h.2⟩

theorem run_countdown (cfg : Config) (i : Nat) (hi : i < cfg.arg_workers)
    (hmax : cfg.arg_workers ≤ cfg.WORKERS_MAX) (envs : List Env) :
    ∀ (st : Monitor) (k e : Int) (l : Nat), slot_view i st = (k, e, l) →
      (envs.length : Int) < k →
      (∀ env ∈ envs, env.pselect = Pselect.timeout ∧ launch_ok env) →
      no_sleep_jump cfg st.timestamp envs →
      ∃ st1, run cfg envs st = some st1 ∧ slot_view i st1 = (k - envs.length, e, l) := by
  induction envs with
  | nil => intro st k e l hv _ _ _; exact ⟨st, rfl, by simpa using hv⟩
  | cons env rest ih =>
    intro st k e l hv hlen hticks hjump
    obtain ⟨hsel, hok⟩ := hticks env (List.mem_cons_self _ _)
    simp only [no_sleep_jump] at hjump
    simp only [List.length_cons, Nat.cast_add, Nat.cast_one] at hlen
    obtain ⟨s1, h1, h2, h3⟩ := timeout_pass_ok cfg env st i hi hmax hsel hok hjump.1
    have hk : ¬ k - 1 ≤ 0 := by omega
    have hv1 : slot_view i s1 = (k - 1, e, l) := by
      rw [h2, hv]; simp [tick_view, hk]
    obtain ⟨s2, g1, g2⟩ := ih s1 (k - 1) e l hv1 (by omega)
      (fun x hx => hticks x (List.mem_cons_of_mem _ hx)) (by rw [h3]; exact hjump.2)
    refine ⟨s2, by simp only [run, h1, g1], ?_⟩
    rw [g2]
    simp only [List.length_cons, Nat.cast_add, Nat.cast_one, Prod.mk.injEq, and_true]
    omega

theorem run_expiry (cfg : Config) (i : Nat) (hi : i < cfg.arg_workers)
    (hmax : cfg.arg_workers ≤ cfg.WORKERS_MAX) (envs : List Env) :
    ∀ (st : Monitor) (k e : Int) (l : Nat), slot_view i st = (k, e, l) →
      1 ≤ k → (envs.length : Int) = k →
      (∀ env ∈ envs, env.pselect = Pselect.timeout ∧ launch_ok env) →
      no_sleep_jump cfg st.timestamp envs →
      ∃ st1, run cfg envs st = some st1
        ∧ slot_view i st1 = (cfg.WORKER_KEEPALIVE_SHUTDOWN, 0, l + 1) := by
  induction envs with
  | nil => intro st k e l _ hk hlen _ _; simp at hlen; omega
  | cons env rest ih =>
    intro st k e l hv hk hlen hticks hjump
    obtain ⟨hsel, hok⟩ := hticks env (List.mem_cons_self _ _)
    simp only [no_sleep_jump] at hjump
    simp only [List.length_cons, Nat.cast_add, Nat.cast_one] at hlen
    obtain ⟨s1, h1, h2, h3⟩ := timeout_pass_ok cfg env st i hi hmax hsel hok hjump.1
    by_cases hlast : k - 1 ≤ 0
    · have hnil : rest = [] := by
        apply List.eq_nil_of_length_eq_zero
        omega
      subst hnil
      refine ⟨s1, by simp only [run, h1], ?_⟩
      rw [h2, hv]; simp [tick_view, hlast]
    · have hv1 : slot_view i s1 = (k - 1, e, l) := by
        rw [h2, hv]; simp [tick_view, hlast]
      obtain ⟨s2, g1, g2⟩ := ih s1 (k - 1) e l hv1 (by omega) (by omega)
        (fun x hx => hticks x (List.mem_cons_of_mem _ hx)) (by rw [h3]; exact hjump.2)
      exact ⟨s2, by simp only [run, h1, g1], g2⟩

/-- C3: a slot `i` that has just been launched (keepalive counter
`WORKER_KEEPALIVE_SHUTDOWN`) and then sees only timeout ticks, with no sleep
jump and with `socketpair` and `clone` succeeding, is not launched again during
the first `WORKER_KEEPALIVE_SHUTDOWN - 1` ticks, its counter going down by one
per tick, and is restarted once on tick number `WORKER_KEEPALIVE_SHUTDOWN`; the
restart leaves its encryption flag 0 and its keepalive counter
`WORKER_KEEPALIVE_SHUTDOWN`. -/
theorem keepalive_expiry_restart (cfg : Config) (st : Monitor) (i : Nat) (envs : List Env)
    (hi : i < cfg.arg_workers) (hmax : cfg.arg_workers ≤ cfg.WORKERS_MAX)
    (hK : 1 ≤ cfg.WORKER_KEEPALIVE_SHUTDOWN)
    (hlaunched : (st.w i).keepalive = cfg.WORKER_KEEPALIVE_SHUTDOWN)
    (hlen : (envs.length : Int) = cfg.WORKER_KEEPALIVE_SHUTDOWN)
    (hticks : ∀ env ∈ envs, env.pselect = Pselect.timeout ∧ launch_ok env)
    (hjump : no_sleep_jump cfg st.timestamp envs) :
    (∀ m, m < envs.length → ∃ st1, run cfg (envs.take m) st = some st1
      ∧ (st1.w i).keepalive = cfg.WORKER_KEEPALIVE_SHUTDOWN - m
      ∧ st1.encrypted i = st.encrypted i
      ∧ launches i st1.trace = launches i st.trace)
    ∧ ∃ st2, run cfg envs st = some st2
      ∧ launches i st2.trace = launches i st.trace + 1
      ∧ st2.encrypted i = 0
      ∧ (st2.w i).keepalive = cfg.WORKER_KEEPALIVE_SHUTDOWN := by
  have hv : slot_view i st
      = (cfg.WORKER_KEEPALIVE_SHUTDOWN, st.encrypted i, launches i st.trace) := by
    simp [slot_view, hlaunched]
  constructor
  · intro m hm
    have hlt : ((envs.take m).length : Int) < cfg.WORKER_KEEPALIVE_SHUTDOWN := by
      rw [List.length_take, ← hlen]
      have : min m envs.length = m := by omega
      rw [this]; omega
    obtain ⟨st1, h1, h2⟩ := run_countdown cfg i hi hmax (envs.take m) st _ _ _ hv hlt
      (fun x hx => hticks x (List.mem_of_mem_take hx)) (no_sleep_jump_take cfg envs _ m hjump)
    refine ⟨st1, h1, ?_⟩
    have hmin : ((List.take m envs).length : Int) = m := by
      rw [List.length_take]
      have : min m envs.length = m := by omega
      rw [this]
    simp only [slot_view, Prod.mk.injEq, hmin] at h2
    exact h2
  · obtain ⟨st2, h1, h2⟩ := run_expiry cfg i hi hmax envs st _ _ _ hv hK hlen hticks hjump
    simp only [slot_view, Prod.mk.injEq] at h2
    exact ⟨st2, h1, h2.2.2, h2.2.1, h2.1⟩

theorem tick_env_ok : tick_env.pselect = Pselect.timeout ∧ launch_ok tick_env := by
  refine ⟨rfl, fun id => ⟨?_, ?_⟩⟩
  · simp [tick_env, test_env]
  · simp only [tick_env, test_env]; omega

/-- Witness of `keepalive_expiry_restart`: slot 0 of `test_state` and three
ticks. -/
theorem keepalive_expiry_restart_witness :
    (0 < test_cfg.arg_workers ∧ 1 ≤ test_cfg.WORKER_KEEPALIVE_SHUTDOWN
      ∧ (test_state.w 0).keepalive = test_cfg.WORKER_KEEPALIVE_SHUTDOWN)
    ∧ ∃ st2, run test_cfg [tick_env, tick_env, tick_env] test_state = some st2
      ∧ launches 0 st2.trace = launches 0 test_state.trace + 1
      ∧ st2.encrypted 0 = 0
      ∧ (st2.w 0).keepalive = test_cfg.WORKER_KEEPALIVE_SHUTDOWN :=
  ⟨by decide,
    (keepalive_expiry_restart test_cfg test_state 0 [tick_env, tick_env, tick_env]
      (by decide) (by decide) (by decide) (by decide) (by decide)
      (fun env h => by
        simp only [List.mem_cons, List.mem_singleton, List.not_mem_nil, or_false, or_self] at h
        rw [h]; exact tick_env_ok)
      (by simp [no_sleep_jump, tick_env, test_env, test_state, test_cfg])).2⟩

end Fdns
